import Mathlib

/-!
Verification of the persona store (src/config/persona_utils.py) and the
meeting-bot request builder (src/scripts/meetingbaas_api.py).

Strings are modelled as lists of characters.  The Python string operations
used by the code (`split`, `split` with maxsplit, `replace`, `strip`,
`startswith`, `in`, `join`) are embedded as executable Lean functions with
Python's leftmost, non-overlapping occurrence semantics.
-/

abbrev Str := List Char

/-- The ASCII characters stripped by Python's `str.strip()`. -/
def pyIsSpace (c : Char) : Bool :=
  c = ' ' || c = '\t' || c = '\n' || c = '\r' || c = Char.ofNat 11 || c = Char.ofNat 12

/-- Python `s.strip()`: remove leading and trailing whitespace. -/
def pyStrip (s : Str) : Str :=
  ((s.dropWhile pyIsSpace).reverse.dropWhile pyIsSpace).reverse

/-- Split at the leftmost occurrence of `sep`: returns the text before the
occurrence and the text after it, or `none` when `sep` does not occur. -/
def splitFirst (sep : Str) : Str → Option (Str × Str)
  | [] => if sep.isPrefixOf ([] : Str) then some ([], []) else none
  | c :: cs =>
    if sep.isPrefixOf (c :: cs) then some ([], (c :: cs).drop sep.length)
    else (splitFirst sep cs).map fun p => (c :: p.1, p.2)

/-- Fuelled worker for Python `s.split(sep)` (non-overlapping, leftmost-first). -/
def pySplitFuel (sep : Str) : Nat → Str → List Str
  | 0, s => [s]
  | fuel + 1, s =>
    match splitFirst sep s with
    | none => [s]
    | some (a, b) => a :: pySplitFuel sep fuel b

/-- Python `s.split(sep)` for a non-empty separator. -/
def pySplit (sep s : Str) : List Str := pySplitFuel sep (s.length + 1) s

/-- Python `s.split(sep, 1)`. -/
def pySplit1 (sep s : Str) : List Str :=
  match splitFirst sep s with
  | none => [s]
  | some (a, b) => [a, b]

/-- Fuelled worker for Python `s.replace(old, new)`. -/
def pyReplaceFuel (old new : Str) : Nat → Str → Str
  | 0, s => s
  | fuel + 1, s =>
    match splitFirst old s with
    | none => s
    | some (a, b) => a ++ new ++ pyReplaceFuel old new fuel b

/-- Python `s.replace(old, new)` for non-empty `old`. -/
def pyReplace (old new s : Str) : Str := pyReplaceFuel old new (s.length + 1) s

/-- Python `sub in s` (substring containment). -/
def pyContains (sub s : Str) : Bool := (splitFirst sub s).isSome

/-- Python `sep.join(xs)`. -/
def pyJoin (sep : Str) : List Str → Str
  | [] => []
  | [x] => x
  | x :: y :: rest => x ++ sep ++ pyJoin sep (y :: rest)

/-! Fixed separator and marker strings appearing in `persona_utils.py`. -/

def sepH2 : Str := "\n## ".toList

def sepNL : Str := "\n".toList

def sepBlank : Str := "\n\n".toList

def hashSpace : Str := "# ".toList

def dashSpace : Str := "- ".toList

def colonSpace : Str := ": ".toList

def hashHashSpace : Str := "## ".toList

def metaWord : Str := "Metadata".toList

def imageKey : Str := "image".toList

def entryMessageKey : Str := "entry_message".toList

/-! ## The persona record and `PersonaManager.parse_readme` -/

structure PersonaRecord where
  name : Str
  prompt : Str
  image : Str
  entry_message : Str
deriving DecidableEq

/-- The metadata loop body of `parse_readme`: scan the lines of the Metadata
section for `- key: value` items; recognized keys overwrite the accumulator
(`image`, `entry_message`), other keys are ignored, malformed lines skipped. -/
def parseMetaLines : List Str → Str × Str → Str × Str
  | [], acc => acc
  | line :: rest, acc =>
    if dashSpace.isPrefixOf line then
      match pySplit1 colonSpace (line.drop 2) with
      | [k, v] =>
        parseMetaLines rest
          (if k = imageKey then (pyStrip v, acc.2)
           else if k = entryMessageKey then (acc.1, pyStrip v)
           else acc)
      | _ => parseMetaLines rest acc
    else parseMetaLines rest acc

/-- The `for section in sections` loop of `parse_readme`: the first section
whose text starts with `Metadata` is scanned, then the loop breaks; when no
section matches, the defaults (empty image and entry message) are returned. -/
def scanMetadata : List Str → Str × Str
  | [] => ([], [])
  | sec :: rest =>
    if metaWord.isPrefixOf sec then parseMetaLines (pySplit sepNL sec) ([], [])
    else scanMetadata rest

/-- `PersonaManager.parse_readme`.  The Python locals are inlined:
`sections = content.split("\n## ")`, `sections[0]` is its head, the name is
the first line of `sections[0]` with every `"# "` removed and stripped, the
prompt is everything after the first blank line of `sections[0]` stripped,
and the metadata scan walks all sections.  `none` models the `IndexError`
raised when `sections[0]` contains no blank line. -/
def parse_readme (content : Str) : Option PersonaRecord :=
  match pySplit1 sepBlank ((pySplit sepH2 content).headD []) with
  | [_, rest] =>
    some { name := pyStrip (pyReplace hashSpace []
             ((pySplit1 sepNL ((pySplit sepH2 content).headD [])).headD [])),
           prompt := pyStrip rest,
           image := (scanMetadata (pySplit sepH2 content)).1,
           entry_message := (scanMetadata (pySplit sepH2 content)).2 }
  | _ => none

/-! ## `PersonaManager.save_persona` and the store operations -/

/-- The f-string template of `save_persona`, split at its interpolation holes:
text between `{prompt}` and the second `{name}`. -/
def rcMid1 : Str := "\n\n## Characteristics\n- Gen-Z speech patterns\n- Tech-savvy and modern\n- Playful and engaging personality\n- Unique perspective on their domain\n\n## Voice\n".toList

/-- Template text between the second `{name}` and `{image}`. -/
def rcMid2 : Str := " speaks with:\n- modern internet slang\n- expertise in their field\n\n## Metadata\n- image: ".toList

/-- Template text between `{image}` and `{entry_message}`. -/
def rcMid3 : Str := "\n- entry_message: ".toList

/-- The Characteristics section body of the `save_persona` template. -/
def charBlock : Str := "Characteristics\n- Gen-Z speech patterns\n- Tech-savvy and modern\n- Playful and engaging personality\n- Unique perspective on their domain\n".toList

/-- The head of the Voice section body, before the second `{name}` hole. -/
def voiceHead : Str := "Voice\n".toList

def voiceWord : Str := "Voice".toList

/-- The Voice section text following the second `{name}` hole, before the
Metadata section marker. -/
def voiceTail : Str := " speaks with:\n- modern internet slang\n- expertise in their field\n".toList

def speaksBlock : Str := "speaks with:\n- modern internet slang\n- expertise in their field\n".toList

/-- The Metadata section text before the `{image}` hole. -/
def metaHead : Str := "Metadata\n- image: ".toList

def imgLineHead : Str := "- image: ".toList

def entLineHead : Str := "- entry_message: ".toList

/-- The document text `save_persona` renders for a record. -/
def readme_content (p : PersonaRecord) : Str :=
  hashSpace ++ p.name ++ sepBlank ++ p.prompt ++ rcMid1 ++ p.name ++ rcMid2 ++
    p.image ++ rcMid3 ++ p.entry_message ++ sepNL

/-- `PersonaManager.save_persona`: renders the document and writes it to the
persona's directory; the success flag and the written text are returned
(the filesystem write itself is outside the model). -/
def save_persona (_key : Str) (p : PersonaRecord) : Bool × Str :=
  (true, readme_content p)

/-- The in-memory persona mapping (`self.personas`), an insertion-ordered
key-to-record map. -/
abbrev Store := List (Str × PersonaRecord)

/-- Python `key in self.personas` / `self.personas[key]`. -/
def lookupKey (store : Store) (k : Str) : Option PersonaRecord :=
  match store with
  | [] => none
  | (k2, r) :: rest => if k2 = k then some r else lookupKey rest k

/-- Python `self.personas.keys()` in insertion order. -/
def storeKeys (store : Store) : List Str := store.map Prod.fst

/-- Assign `self.personas[k] = r` for a key already present. -/
def setKey (store : Store) (k : Str) (r : PersonaRecord) : Store :=
  store.map fun e => if e.1 = k then (e.1, r) else e

/-- `PersonaManager.update_persona_image`: on a known key, set the record's
image and persist via `save_persona`, returning its success flag; on an
unknown key, log and return `False` without touching the store. -/
def update_persona_image (store : Store) (key imagePath : Str) : Bool × Store :=
  match lookupKey store key with
  | some r =>
    ((save_persona key { r with image := imagePath }).1,
      setKey store key { r with image := imagePath })
  | none => (false, store)

/-- The fixed behavioural-instruction block appended by `get_persona`. -/
def interaction_instructions : Str :=
  "\nRemember:\n1. Start by clearly stating who you are\n2. When someone new speaks, ask them who they are\n3. Then consider and express how their role/expertise could help you".toList

def squote : Char := Char.ofNat 39

/-- The `KeyError` message of `get_persona` for an unknown key. -/
def personaNotFoundMsg (name : Str) (keys : List Str) : Str :=
  "Persona ".toList ++ [squote] ++ name ++ [squote] ++
    " not found. Valid options: ".toList ++ pyJoin ", ".toList keys

/-- `PersonaManager.get_persona` with an explicit name argument.  The raised
`KeyError` becomes an `Except.error`; the returned store component models the
mapping after the call (the code copies the record before mutating it). -/
def get_persona (store : Store) (name : Str) : Except Str PersonaRecord × Store :=
  match lookupKey store name with
  | none => (Except.error (personaNotFoundMsg name (storeKeys store)), store)
  | some r =>
    let persona := r
    let persona := if persona.image = [] then { persona with image := ([] : Str) } else persona
    let persona := { persona with prompt := persona.prompt ++ interaction_instructions }
    (Except.ok persona, store)

/-- `PersonaManager.needs_image_upload`. -/
def needs_image_upload (store : Store) (key domain : Str) : Bool :=
  match lookupKey store key with
  | none => false
  | some r => !(!r.image.isEmpty && pyContains domain r.image)

/-! ## `create_meeting_bot` request construction (meetingbaas_api.py) -/

structure Streaming where
  input : Str
  output : Str
  audio_frequency : Str
deriving DecidableEq

structure AutomaticLeave where
  waiting_room_timeout : Nat := 600
  noone_joined_timeout : Nat := 0
deriving DecidableEq

inductive RecordingMode where
  | speaker_view
  | gallery_view
  | screen_share
deriving DecidableEq

structure SpeechToText where
  provider : Str
  api_key : Option Str
deriving DecidableEq

/-- The `MeetingBaasRequest` pydantic model; `extra` is free-form metadata of
an arbitrary type. -/
structure MeetingBaasRequest (α : Type) where
  meeting_url : Str
  bot_name : Str
  reserved : Bool := false
  streaming : Streaming
  automatic_leave : AutomaticLeave := {}
  recording_mode : RecordingMode := RecordingMode.speaker_view
  bot_image : Option Str := none
  deduplication_key : Option Str := none
  entry_message : Option Str := none
  extra : Option α := none
  speech_to_text : Option SpeechToText := none
  start_time : Option Nat := none
  webhook_url : Option Str := none

/-- The request-construction prefix of `create_meeting_bot`, up to (not
including) the HTTP POST. -/
def create_meeting_bot_request {α : Type} (meeting_url websocket_url bot_id persona_name : Str)
    (recorder_only : Bool) (bot_image : Option Str) (entry_message : Option Str)
    (extra : Option α) (streaming_audio_frequency : Str) : MeetingBaasRequest α :=
  let websocket_with_path := websocket_url ++ "/ws/".toList ++ bot_id
  let streaming : Streaming :=
    { input := websocket_with_path, output := websocket_with_path,
      audio_frequency := streaming_audio_frequency }
  let request : MeetingBaasRequest α :=
    { meeting_url := meeting_url, bot_name := persona_name, reserved := false,
      deduplication_key := some (persona_name ++ "-BaaS-".toList ++ bot_id),
      streaming := streaming, bot_image := bot_image, entry_message := entry_message,
      extra := extra }
  if recorder_only then
    { request with speech_to_text := some { provider := "Default".toList, api_key := none } }
  else request

/-! ## Occurrence analysis for leftmost splitting -/

/-- No occurrence of `sep` begins strictly inside `a` when the text continues
with `tail`: every non-empty suffix of `a`, extended by `tail`, fails the
prefix test for `sep`. -/
def NoMidOcc (sep : Str) : Str → Str → Prop
  | [], _ => True
  | c :: a, tail => sep.isPrefixOf (c :: (a ++ tail)) = false ∧ NoMidOcc sep a tail

/-- `sep` fails to be a prefix of `t ++ x` for every continuation `x`:
either a mismatch occurs inside `t`, or `t` is shorter than `sep` and is not
the corresponding prefix of `sep`. -/
def failsAlways (sep t : Str) : Bool :=
  if sep.length ≤ t.length then !sep.isPrefixOf t
  else !(decide (t = sep.take t.length))

/-- Decidable check implying `NoMidOcc sep a (tpre ++ x)` for every `x`. -/
def nmoCheckT (sep tpre : Str) : Str → Bool
  | [] => true
  | c :: a => failsAlways sep (c :: (a ++ tpre)) && nmoCheckT sep tpre a

/-! ## Concrete sample data used by witnesses and counterexamples -/

/-- The `nova` example record of the spec. -/
def sampleRec : PersonaRecord :=
  { name := "Nova".toList, prompt := "I am Nova.".toList, image := [],
    entry_message := "hi".toList }

def sampleStore : Store := [( "nova".toList, sampleRec)]

/-- A record whose image already points at the hosting domain. -/
def sampleRecUploaded : PersonaRecord :=
  { name := "Ada".toList, prompt := "P".toList,
    image := "https://uploadthing.com/a.png".toList, entry_message := [] }

def sampleStore2 : Store := [( "ada".toList, sampleRecUploaded)]

/-- A record whose name contains an interior `"# "`; the claimed round trip
fails on it. -/
def ceRecC1 : PersonaRecord :=
  { name := "A # B".toList, prompt := "P".toList, image := [], entry_message := [] }

/-- A document whose first section has two paragraphs after the title. -/
def ceDocC2 : Str := "# T\n\npara one\n\npara two".toList

/-- A document whose title line contains an interior `"# "`. -/
def ceDocC3 : Str := "# A # B\n\nP".toList

/-- A record whose prompt embeds a `"## Metadata"` header of its own. -/
def ceRecC8 : PersonaRecord :=
  { name := "N".toList, prompt := "Hi\n## Metadata\n- image: evil".toList,
    image := [], entry_message := [] }

/-- A record whose prompt embeds a harmless `"## Extra"` header. -/
def sampleRecEmbedded : PersonaRecord :=
  { name := "N".toList, prompt := "Hi\n## Extra\n- note: x".toList,
    image := "img".toList, entry_message := "msg".toList }

set_option maxRecDepth 40000

/-! ## Basic facts about the embedded string operations -/

theorem nil_isPrefixOf (s : Str) : ([] : Str).isPrefixOf s = true := by
  cases s <;> rfl

theorem isPrefixOf_cons (a : Char) (p : Str) (b : Char) (s : Str) :
    (a :: p).isPrefixOf (b :: s) = ((a == b) && p.isPrefixOf s) := rfl

theorem isPrefixOf_append_left (p : Str) : ∀ (s t : Str), p.length ≤ s.length →
    p.isPrefixOf (s ++ t) = p.isPrefixOf s := by
  induction p with
  | nil => intro s t _; rw [nil_isPrefixOf, nil_isPrefixOf]
  | cons a p ih =>
    intro s t h
    cases s with
    | nil => simp at h
    | cons b s =>
      rw [List.cons_append, isPrefixOf_cons, isPrefixOf_cons,
        ih s t (Nat.le_of_succ_le_succ h)]

theorem isPrefixOf_self_append (p s : Str) : p.isPrefixOf (p ++ s) = true := by
  induction p with
  | nil => exact nil_isPrefixOf s
  | cons a p ih => rw [List.cons_append, isPrefixOf_cons, ih]; simp

theorem splitFirst_nil (sep : Str) (hsep : sep ≠ []) : splitFirst sep [] = none := by
  cases sep with
  | nil => exact absurd rfl hsep
  | cons a p => rfl

theorem splitFirst_cons_pos (sep : Str) (c : Char) (cs : Str)
    (h : sep.isPrefixOf (c :: cs) = true) :
    splitFirst sep (c :: cs) = some ([], (c :: cs).drop sep.length) := by
  simp [splitFirst, h]

theorem splitFirst_cons_neg (sep : Str) (c : Char) (cs : Str)
    (h : sep.isPrefixOf (c :: cs) = false) :
    splitFirst sep (c :: cs) = (splitFirst sep cs).map fun p => (c :: p.1, p.2) := by
  simp [splitFirst, h]

theorem splitFirst_cons_none (sep : Str) (c : Char) (cs : Str)
    (h : splitFirst sep (c :: cs) = none) :
    sep.isPrefixOf (c :: cs) = false ∧ splitFirst sep cs = none := by
  by_cases hp : sep.isPrefixOf (c :: cs) = true
  · rw [splitFirst_cons_pos sep c cs hp] at h; cases h
  · have hp2 : sep.isPrefixOf (c :: cs) = false := by
      cases hb : sep.isPrefixOf (c :: cs)
      · rfl
      · exact absurd hb hp
    refine ⟨hp2, ?_⟩
    rw [splitFirst_cons_neg sep c cs hp2] at h
    exact Option.map_eq_none'.mp h

theorem splitFirst_head (sep b : Str) (hsep : sep ≠ []) :
    splitFirst sep (sep ++ b) = some ([], b) := by
  cases sep with
  | nil => exact absurd rfl hsep
  | cons x xs =>
    rw [List.cons_append, splitFirst_cons_pos (x :: xs) x (xs ++ b)
      (by rw [← List.cons_append]; exact isPrefixOf_self_append (x :: xs) b)]
    rw [← List.cons_append, List.drop_left]

theorem splitFirst_boundary (sep a b : Str) (hsep : sep ≠ [])
    (hmid : NoMidOcc sep a (sep ++ b)) :
    splitFirst sep (a ++ (sep ++ b)) = some (a, b) := by
  induction a with
  | nil => rw [List.nil_append]; exact splitFirst_head sep b hsep
  | cons c a ih =>
    obtain ⟨h1, h2⟩ := hmid
    rw [List.cons_append, splitFirst_cons_neg sep c (a ++ (sep ++ b)) h1, ih h2]
    rfl

theorem splitFirst_append_none (sep x y : Str) (hx : NoMidOcc sep x y)
    (hy : splitFirst sep y = none) : splitFirst sep (x ++ y) = none := by
  induction x with
  | nil => rw [List.nil_append]; exact hy
  | cons c x ih =>
    obtain ⟨h1, h2⟩ := hx
    rw [List.cons_append, splitFirst_cons_neg sep c (x ++ y) h1, ih h2]
    rfl

theorem splitFirst_length_lt (sep : Str) (hsep : sep ≠ []) :
    ∀ s a b, splitFirst sep s = some (a, b) → b.length < s.length := by
  intro s
  induction s with
  | nil => intro a b h; rw [splitFirst_nil sep hsep] at h; cases h
  | cons c cs ih =>
    intro a b h
    by_cases hp : sep.isPrefixOf (c :: cs) = true
    · rw [splitFirst_cons_pos sep c cs hp] at h
      have hb : b = (c :: cs).drop sep.length := by
        injection h with h2; injection h2 with h3 h4; exact h4.symm
      have hpos : 0 < sep.length := by
        cases sep with
        | nil => exact absurd rfl hsep
        | cons _ _ => exact Nat.succ_pos _
      rw [hb, List.length_drop]
      simp only [List.length_cons]
      omega
    · have hp2 : sep.isPrefixOf (c :: cs) = false := by
        cases hb : sep.isPrefixOf (c :: cs)
        · rfl
        · exact absurd hb hp
      rw [splitFirst_cons_neg sep c cs hp2] at h
      cases inner : splitFirst sep cs with
      | none => rw [inner] at h; cases h
      | some p =>
        rw [inner] at h
        have hb : b = p.2 := by
          simp only [Option.map_some'] at h
          injection h with h2
          exact (congrArg Prod.snd h2).symm
        rw [hb, List.length_cons]
        exact Nat.lt_succ_of_lt (ih p.1 p.2 (by rw [inner]))

theorem pySplitFuel_irrel (sep : Str) (hsep : sep ≠ []) :
    ∀ f g s, s.length < f → s.length < g → pySplitFuel sep f s = pySplitFuel sep g s := by
  intro f
  induction f with
  | zero => intro g s h; omega
  | succ f ih =>
    intro g s hf hg
    cases g with
    | zero => omega
    | succ g =>
      cases h : splitFirst sep s with
      | none => simp only [pySplitFuel, h]
      | some p =>
        have hlt : p.2.length < s.length :=
          splitFirst_length_lt sep hsep s p.1 p.2 (by rw [h])
        simp only [pySplitFuel, h]
        rw [ih g p.2 (by omega) (by omega)]

theorem pySplitFuel_succ (sep : Str) (n : Nat) (s : Str) :
    pySplitFuel sep (n + 1) s =
      (match splitFirst sep s with
        | none => [s]
        | some (a, b) => a :: pySplitFuel sep n b) := rfl

theorem pySplit_of_none (sep s : Str) (h : splitFirst sep s = none) :
    pySplit sep s = [s] := by
  show pySplitFuel sep (s.length + 1) s = [s]
  rw [pySplitFuel_succ, h]

theorem pySplit_boundary (sep a b : Str) (hsep : sep ≠ [])
    (hmid : NoMidOcc sep a (sep ++ b)) :
    pySplit sep (a ++ (sep ++ b)) = a :: pySplit sep b := by
  have hsf := splitFirst_boundary sep a b hsep hmid
  have hpos : 0 < sep.length := by
    cases sep with
    | nil => exact absurd rfl hsep
    | cons _ _ => exact Nat.succ_pos _
  have hlen : b.length < (a ++ (sep ++ b)).length := by
    simp only [List.length_append]
    omega
  show pySplitFuel sep ((a ++ (sep ++ b)).length + 1) (a ++ (sep ++ b)) = a :: pySplit sep b
  rw [pySplitFuel_succ, hsf]
  show a :: pySplitFuel sep ((a ++ (sep ++ b)).length) b = a :: pySplit sep b
  rw [pySplitFuel_irrel sep hsep _ (b.length + 1) b hlen (Nat.lt_succ_self _)]
  rfl

theorem pyReplaceFuel_irrel (old new : Str) (hold : old ≠ []) :
    ∀ f g s, s.length < f → s.length < g →
      pyReplaceFuel old new f s = pyReplaceFuel old new g s := by
  intro f
  induction f with
  | zero => intro g s h; omega
  | succ f ih =>
    intro g s hf hg
    cases g with
    | zero => omega
    | succ g =>
      cases h : splitFirst old s with
      | none => simp only [pyReplaceFuel, h]
      | some p =>
        have hlt : p.2.length < s.length :=
          splitFirst_length_lt old hold s p.1 p.2 (by rw [h])
        simp only [pyReplaceFuel, h]
        rw [ih g p.2 (by omega) (by omega)]

theorem pyReplaceFuel_succ (old new : Str) (n : Nat) (s : Str) :
    pyReplaceFuel old new (n + 1) s =
      (match splitFirst old s with
        | none => s
        | some (a, b) => a ++ new ++ pyReplaceFuel old new n b) := rfl

theorem pyReplace_of_none (old new s : Str) (h : splitFirst old s = none) :
    pyReplace old new s = s := by
  show pyReplaceFuel old new (s.length + 1) s = s
  rw [pyReplaceFuel_succ, h]

theorem pyReplace_head (old new s : Str) (hold : old ≠ []) :
    pyReplace old new (old ++ s) = new ++ pyReplace old new s := by
  have h1 := splitFirst_head old s hold
  have hpos : 0 < old.length := by
    cases old with
    | nil => exact absurd rfl hold
    | cons _ _ => exact Nat.succ_pos _
  have hlen : s.length < (old ++ s).length := by
    simp only [List.length_append]
    omega
  show pyReplaceFuel old new ((old ++ s).length + 1) (old ++ s) = new ++ pyReplace old new s
  rw [pyReplaceFuel_succ, h1]
  show [] ++ new ++ pyReplaceFuel old new ((old ++ s).length) s = new ++ pyReplace old new s
  rw [pyReplaceFuel_irrel old new hold _ (s.length + 1) s hlen (Nat.lt_succ_self _)]
  rw [List.nil_append]
  rfl

/-! ## Occurrence-analysis lemmas -/

theorem sepH2_eq : sepH2 = ['\n', '#', '#', ' '] := rfl

theorem sepNL_eq : sepNL = ['\n'] := rfl

theorem sepBlank_eq : sepBlank = ['\n', '\n'] := rfl

theorem hashSpace_eq : hashSpace = ['#', ' '] := rfl

theorem hashHashSpace_eq : hashHashSpace = ['#', '#', ' '] := rfl

theorem isPrefixOf_head_ne (a : Char) (p : Str) (b : Char) (s : Str) (h : (a == b) = false) :
    (a :: p).isPrefixOf (b :: s) = false := by
  rw [isPrefixOf_cons, h, Bool.false_and]

theorem noMidOcc_nil (sep tail : Str) : NoMidOcc sep [] tail := trivial

theorem noMidOcc_cons (sep : Str) (c : Char) (a tail : Str) :
    NoMidOcc sep (c :: a) tail ↔
      (sep.isPrefixOf (c :: (a ++ tail)) = false ∧ NoMidOcc sep a tail) := Iff.rfl

theorem noMidOcc_append (sep x y tail : Str) (hx : NoMidOcc sep x (y ++ tail))
    (hy : NoMidOcc sep y tail) : NoMidOcc sep (x ++ y) tail := by
  induction x with
  | nil => rw [List.nil_append]; exact hy
  | cons c x ih =>
    obtain ⟨h1, h2⟩ := hx
    rw [List.cons_append, noMidOcc_cons]
    refine ⟨?_, ih h2⟩
    rw [List.append_assoc]
    exact h1

theorem noMidOcc_head_notMem (c0 : Char) (sep2 a tail : Str) (h : c0 ∉ a) :
    NoMidOcc (c0 :: sep2) a tail := by
  induction a with
  | nil => trivial
  | cons c a ih =>
    have hc : (c0 == c) = false := by
      have : ¬ c0 = c := fun e => h (by rw [e]; exact List.mem_cons_self c a)
      simp [this]
    exact ⟨isPrefixOf_head_ne c0 sep2 c (a ++ tail) hc,
      ih fun hm => h (List.mem_cons_of_mem c hm)⟩

theorem failsAlways_correct (sep : Str) : ∀ t, failsAlways sep t = true →
    ∀ x, sep.isPrefixOf (t ++ x) = false := by
  induction sep with
  | nil =>
    intro t h x
    exfalso
    simp [failsAlways, nil_isPrefixOf] at h
  | cons s ss ih =>
    intro t h x
    cases t with
    | nil =>
      exfalso
      unfold failsAlways at h
      rw [if_neg (by simp)] at h
      simp at h
    | cons c cs =>
      rw [List.cons_append, isPrefixOf_cons]
      unfold failsAlways at h
      by_cases hle : (s :: ss).length ≤ (c :: cs).length
      · rw [if_pos hle] at h
        have hp : (s :: ss).isPrefixOf (c :: cs) = false := by
          cases hb : (s :: ss).isPrefixOf (c :: cs)
          · rfl
          · rw [hb] at h; simp at h
        rw [isPrefixOf_cons] at hp
        by_cases hcs : s = c
        · have hb : (s == c) = true := by rw [hcs]; exact beq_self_eq_true c
          rw [hb, Bool.true_and] at hp
          rw [hb, Bool.true_and]
          apply ih cs
          unfold failsAlways
          rw [if_pos (Nat.le_of_succ_le_succ hle), hp]
          rfl
        · have hb : (s == c) = false := beq_eq_false_iff_ne.mpr hcs
          rw [hb, Bool.false_and]
      · rw [if_neg hle] at h
        have hne : ¬ (c :: cs) = (s :: ss).take (c :: cs).length := by
          intro he
          rw [decide_eq_true he] at h
          simp at h
        rw [List.length_cons, List.take_succ_cons] at hne
        by_cases hcs : c = s
        · subst hcs
          have hne2 : ¬ cs = ss.take cs.length := fun he => hne (by rw [← he])
          rw [beq_self_eq_true, Bool.true_and]
          apply ih cs
          unfold failsAlways
          have hlt : cs.length < ss.length := by
            simp only [List.length_cons] at hle
            omega
          rw [if_neg (by omega), decide_eq_false hne2]
          rfl
        · have hb : (s == c) = false := beq_eq_false_iff_ne.mpr (Ne.symm hcs)
          rw [hb, Bool.false_and]

theorem noMidOcc_of_checkT (sep tpre : Str) :
    ∀ a, nmoCheckT sep tpre a = true → ∀ x, NoMidOcc sep a (tpre ++ x) := by
  intro a
  induction a with
  | nil => intro _ x; trivial
  | cons c a ih =>
    intro h x
    unfold nmoCheckT at h
    obtain ⟨h1, h2⟩ := Bool.and_eq_true_iff.mp h
    refine ⟨?_, ih h2 x⟩
    have hfa := failsAlways_correct sep (c :: (a ++ tpre)) h1 x
    rw [List.cons_append, List.append_assoc] at hfa
    exact hfa

theorem isPrefixOf_append_cons_false (sep : Str) (d : Char) (hd : d ∉ sep) :
    ∀ t x, sep.isPrefixOf t = false → sep.isPrefixOf (t ++ d :: x) = false := by
  induction sep with
  | nil =>
    intro t x h
    rw [nil_isPrefixOf] at h
    cases h
  | cons s ss ih =>
    intro t x h
    cases t with
    | nil =>
      rw [List.nil_append]
      refine isPrefixOf_head_ne s ss d x ?_
      have : ¬ s = d := fun e => hd (by rw [← e]; exact List.mem_cons_self s ss)
      simp [this]
    | cons c cs =>
      rw [List.cons_append, isPrefixOf_cons]
      rw [isPrefixOf_cons] at h
      by_cases hcs : s = c
      · have hb : (s == c) = true := by rw [hcs]; exact beq_self_eq_true c
        rw [hb, Bool.true_and] at h
        rw [hb, Bool.true_and]
        exact ih (fun hm => hd (List.mem_cons_of_mem s hm)) cs x h
      · have hb : (s == c) = false := beq_eq_false_iff_ne.mpr hcs
        rw [hb, Bool.false_and]

theorem noMidOcc_sepH2_of_none (p : Str) : splitFirst sepH2 p = none →
    ∀ x, NoMidOcc sepH2 p ('\n' :: x) := by
  induction p with
  | nil => intro _ x; trivial
  | cons c cs ih =>
    intro h x
    obtain ⟨h1, h2⟩ := splitFirst_cons_none _ _ _ h
    refine ⟨?_, ih h2 x⟩
    have hf1 : (('#' : Char) == '\n') = false := by decide
    have hf2 : ((' ' : Char) == '\n') = false := by decide
    match cs with
    | [] =>
      rw [sepH2_eq]
      show List.isPrefixOf ['\n', '#', '#', ' '] (c :: '\n' :: x) = false
      rw [isPrefixOf_cons, isPrefixOf_cons, hf1]
      simp
    | [d] =>
      rw [sepH2_eq]
      show List.isPrefixOf ['\n', '#', '#', ' '] (c :: d :: '\n' :: x) = false
      rw [isPrefixOf_cons, isPrefixOf_cons, isPrefixOf_cons, hf1]
      simp
    | [d, e] =>
      rw [sepH2_eq]
      show List.isPrefixOf ['\n', '#', '#', ' '] (c :: d :: e :: '\n' :: x) = false
      rw [isPrefixOf_cons, isPrefixOf_cons, isPrefixOf_cons, isPrefixOf_cons, hf2]
      simp
    | d :: e :: f :: rest =>
      have hsh : c :: ((d :: e :: f :: rest) ++ '\n' :: x) =
          (c :: d :: e :: f :: rest) ++ ('\n' :: x) := rfl
      rw [hsh, isPrefixOf_append_left _ _ _
        (by rw [sepH2_eq]; simp only [List.length_cons, List.length_nil]; omega)]
      exact h1

theorem hashHash_append_space_false (name : Str) (h : splitFirst hashSpace name = none)
    (hne : name ≠ ['#', '#']) (z : Str) :
    hashHashSpace.isPrefixOf (name ++ ' ' :: z) = false := by
  have hf1 : (('#' : Char) == ' ') = false := by decide
  match name with
  | [] =>
    rw [hashHashSpace_eq]
    show List.isPrefixOf ['#', '#', ' '] (' ' :: z) = false
    exact isPrefixOf_head_ne _ _ _ _ hf1
  | [a] =>
    rw [hashHashSpace_eq]
    show List.isPrefixOf ['#', '#', ' '] (a :: ' ' :: z) = false
    rw [isPrefixOf_cons, isPrefixOf_cons, hf1]
    simp
  | [a, b] =>
    rw [hashHashSpace_eq]
    show List.isPrefixOf ['#', '#', ' '] (a :: b :: ' ' :: z) = false
    rw [isPrefixOf_cons, isPrefixOf_cons, isPrefixOf_cons]
    by_cases ha : a = '#'
    · by_cases hb : b = '#'
      · exact absurd (by rw [ha, hb]) hne
      · have hbb : (('#' : Char) == b) = false := beq_eq_false_iff_ne.mpr (Ne.symm hb)
        rw [hbb]
        simp
    · have hba : (('#' : Char) == a) = false := beq_eq_false_iff_ne.mpr (Ne.symm ha)
      rw [hba]
      simp
  | a :: b :: c :: rest =>
    have hsh : (a :: b :: c :: rest) ++ ' ' :: z = a :: b :: c :: (rest ++ ' ' :: z) := rfl
    by_cases hp : hashHashSpace.isPrefixOf (a :: b :: c :: rest) = true
    · exfalso
      rw [hashHashSpace_eq, isPrefixOf_cons, isPrefixOf_cons, isPrefixOf_cons] at hp
      have ha : a = '#' := by
        cases hx : ('#' : Char) == a
        · rw [hx] at hp; simp at hp
        · exact (eq_of_beq hx).symm
      have hb : b = '#' := by
        cases hx : ('#' : Char) == b
        · rw [hx] at hp; simp at hp
        · exact (eq_of_beq hx).symm
      have hc : c = ' ' := by
        cases hx : (' ' : Char) == c
        · rw [hx] at hp; simp at hp
        · exact (eq_of_beq hx).symm
      subst ha; subst hb; subst hc
      -- name = '#' :: '#' :: ' ' :: rest contains "# " at position 1
      have e1 : hashSpace.isPrefixOf ('#' :: '#' :: ' ' :: rest) = false := by
        rw [hashSpace_eq, isPrefixOf_cons, isPrefixOf_cons]
        have : ((' ' : Char) == '#') = false := by decide
        rw [this]
        simp
      have e2 : hashSpace.isPrefixOf ('#' :: ' ' :: rest) = true := by
        rw [hashSpace_eq, isPrefixOf_cons, isPrefixOf_cons]
        simp
      rw [splitFirst_cons_neg _ _ _ e1,
        splitFirst_cons_pos _ _ _ e2] at h
      simp at h
    · have hp2 : hashHashSpace.isPrefixOf (a :: b :: c :: rest) = false := by
        cases hx : hashHashSpace.isPrefixOf (a :: b :: c :: rest)
        · rfl
        · exact absurd hx hp
      rw [hsh]
      have hsh2 : a :: b :: c :: (rest ++ ' ' :: z) = (a :: b :: c :: rest) ++ (' ' :: z) := by
        simp
      rw [hsh2, isPrefixOf_append_left _ _ _ (by rw [hashHashSpace_eq]; simp)]
      exact hp2

theorem append_eq_append_cases (a : Str) : ∀ (b x y : Str), a ++ x = b ++ y →
    (∃ t, b = a ++ t) ∨ (∃ t, a = b ++ t) := by
  induction a with
  | nil => intro b x y _; exact Or.inl ⟨b, rfl⟩
  | cons c a ih =>
    intro b x y h
    cases b with
    | nil => exact Or.inr ⟨c :: a, rfl⟩
    | cons d b =>
      rw [List.cons_append, List.cons_append] at h
      have h1 : c = d := by injection h
      have h2 : a ++ x = b ++ y := by injection h
      rcases ih b x y h2 with ⟨t, ht⟩ | ⟨t, ht⟩
      · exact Or.inl ⟨t, by rw [← h1, ht, List.cons_append]⟩
      · exact Or.inr ⟨t, by rw [h1, ht, List.cons_append]⟩

/-! ## Lemmas about `pyStrip` -/

theorem dropWhile_append_split (p : Char → Bool) (s t : Str) :
    List.dropWhile p (s ++ t) =
      if (List.dropWhile p s).isEmpty then List.dropWhile p t
      else List.dropWhile p s ++ t := by
  induction s with
  | nil => simp
  | cons c s ih =>
    cases hc : p c with
    | true => simp [List.dropWhile_cons, hc, ih]
    | false => simp [List.dropWhile_cons, hc]

theorem pyStrip_append_newline (s : Str) : pyStrip (s ++ ['\n']) = pyStrip s := by
  unfold pyStrip
  rw [dropWhile_append_split]
  by_cases hu : (s.dropWhile pyIsSpace).isEmpty = true
  · rw [if_pos hu]
    have h2 : s.dropWhile pyIsSpace = [] := List.isEmpty_iff.mp hu
    rw [h2]
    rfl
  · rw [if_neg hu, List.reverse_append]
    have h3 : (['\n'] : Str).reverse = ['\n'] := rfl
    rw [h3]
    have h4 : ∀ w : Str, List.dropWhile pyIsSpace ('\n' :: w) = List.dropWhile pyIsSpace w := by
      intro w
      rw [List.dropWhile_cons]
      exact if_pos rfl
    rw [show (['\n'] : Str) ++ (s.dropWhile pyIsSpace).reverse =
      '\n' :: (s.dropWhile pyIsSpace).reverse from rfl]
    rw [h4]

/-! ## Decomposition of the saved document into sections -/

theorem metaWord_eq : metaWord = 'M' :: "etadata".toList := rfl

theorem rcMid1_eq : rcMid1 = ['\n'] ++ (sepH2 ++ (charBlock ++ (sepH2 ++ voiceHead))) := by
  decide

theorem rcMid2_eq : rcMid2 = voiceTail ++ (sepH2 ++ metaHead) := by decide

theorem rcMid3_eq : rcMid3 = ['\n'] ++ entLineHead := by decide

theorem voiceCombo_eq :
    voiceHead ++ (['#', '#'] ++ voiceTail) = voiceWord ++ (sepH2 ++ speaksBlock) := by decide

theorem nmo_charBlock : nmoCheckT sepH2 sepH2 charBlock = true := by decide

theorem nmo_voiceTail : nmoCheckT sepH2 sepH2 voiceTail = true := by decide

theorem nmo_voiceWord : nmoCheckT sepH2 sepH2 voiceWord = true := by decide

theorem nmo_speaksBlock : nmoCheckT sepH2 sepH2 speaksBlock = true := by decide

theorem nmo_metaHead : nmoCheckT sepH2 [] metaHead = true := by decide

theorem nmo_rcMid3 : nmoCheckT sepH2 [] rcMid3 = true := by decide

theorem noMidOcc_of_checkT_nil (sep a : Str) (h : nmoCheckT sep [] a = true) (x : Str) :
    NoMidOcc sep a x := by
  have h2 := noMidOcc_of_checkT sep [] a h x
  rwa [List.nil_append] at h2

theorem sepH2_ne_nil : sepH2 ≠ [] := by rw [sepH2_eq]; simp

theorem splitFirst_sepH2_nl_none : splitFirst sepH2 ['\n'] = none := by decide

/-- The rendered Metadata section contains no section separator when the image
and entry-message values are single-line. -/
theorem metaSection_none (image entry : Str) (hi : '\n' ∉ image) (he : '\n' ∉ entry) :
    splitFirst sepH2 (metaHead ++ (image ++ (rcMid3 ++ (entry ++ sepNL)))) = none := by
  apply splitFirst_append_none _ _ _ (noMidOcc_of_checkT_nil _ _ nmo_metaHead _)
  apply splitFirst_append_none
  · rw [sepH2_eq]
    exact noMidOcc_head_notMem '\n' _ image _ hi
  apply splitFirst_append_none _ _ _ (noMidOcc_of_checkT_nil _ _ nmo_rcMid3 _)
  apply splitFirst_append_none
  · rw [sepH2_eq]
    exact noMidOcc_head_notMem '\n' _ entry _ he
  · rw [sepNL_eq]
    exact splitFirst_sepH2_nl_none

/-- Splitting everything after the first section separator of a saved
document: the final fragment is the Metadata section, and no earlier fragment
starts with the word `Metadata`. -/
theorem tail_sections (name D : Str) (hn1 : '\n' ∉ name)
    (hn2 : splitFirst hashSpace name = none) (hD : splitFirst sepH2 D = none) :
    ∃ mids : List Str,
      pySplit sepH2
          (charBlock ++ (sepH2 ++ ((voiceHead ++ (name ++ voiceTail)) ++ (sepH2 ++ D)))) =
        mids ++ [D] ∧
      ∀ s ∈ mids, metaWord.isPrefixOf s = false := by
  have hsep := sepH2_ne_nil
  by_cases hnn : name = ['#', '#']
  · subst hnn
    refine ⟨[charBlock, voiceWord, speaksBlock], ?_, ?_⟩
    · rw [pySplit_boundary _ _ _ hsep (noMidOcc_of_checkT _ _ _ nmo_charBlock _)]
      rw [voiceCombo_eq, List.append_assoc, List.append_assoc]
      rw [pySplit_boundary _ _ _ hsep (noMidOcc_of_checkT _ _ _ nmo_voiceWord _)]
      rw [pySplit_boundary _ _ _ hsep (noMidOcc_of_checkT _ _ _ nmo_speaksBlock _)]
      rw [pySplit_of_none _ _ hD]
      rfl
    · intro s hs
      simp only [List.mem_cons, List.not_mem_nil, or_false] at hs
      rcases hs with rfl | rfl | rfl
      · decide
      · decide
      · decide
  · refine ⟨[charBlock, voiceHead ++ (name ++ voiceTail)], ?_, ?_⟩
    · rw [pySplit_boundary _ _ _ hsep (noMidOcc_of_checkT _ _ _ nmo_charBlock _)]
      have hCv : NoMidOcc sepH2 (voiceHead ++ (name ++ voiceTail)) (sepH2 ++ D) := by
        have hvh : voiceHead ++ (name ++ voiceTail) =
            voiceWord ++ (['\n'] ++ (name ++ voiceTail)) := rfl
        rw [hvh]
        apply noMidOcc_append
        · rw [sepH2_eq]
          exact noMidOcc_head_notMem '\n' _ voiceWord _ (by decide)
        apply noMidOcc_append
        · rw [noMidOcc_cons]
          refine ⟨?_, trivial⟩
          rw [List.nil_append, sepH2_eq, isPrefixOf_cons]
          have hspan : List.isPrefixOf ['#', '#', ' ']
              ((name ++ voiceTail) ++ (sepH2 ++ D)) = false := by
            have hvt : voiceTail = ' ' :: speaksBlock := rfl
            rw [List.append_assoc, hvt, List.cons_append]
            have hhh := hashHash_append_space_false name hn2 hnn (speaksBlock ++ (sepH2 ++ D))
            rw [hashHashSpace_eq] at hhh
            exact hhh
          rw [sepH2_eq] at hspan
          rw [hspan]
          simp
        · apply noMidOcc_append
          · rw [sepH2_eq]
            exact noMidOcc_head_notMem '\n' _ name _ hn1
          · exact noMidOcc_of_checkT _ _ _ nmo_voiceTail _
      rw [pySplit_boundary _ _ _ hsep hCv]
      rw [pySplit_of_none _ _ hD]
      rfl
    · intro s hs
      simp only [List.mem_cons, List.not_mem_nil, or_false] at hs
      rcases hs with rfl | rfl
      · decide
      · have hsh : voiceHead ++ (name ++ voiceTail) =
            'V' :: ("oice\n".toList ++ (name ++ voiceTail)) := rfl
        rw [hsh, metaWord_eq]
        exact isPrefixOf_head_ne _ _ _ _ (by decide)

/-! ## Reading the Metadata section back -/

theorem colonSpace_eq : colonSpace = [':', ' '] := rfl

theorem dashSpace_eq : dashSpace = ['-', ' '] := rfl

theorem scanMetadata_skip (s : Str) (rest : List Str) (h : metaWord.isPrefixOf s = false) :
    scanMetadata (s :: rest) = scanMetadata rest := by
  simp [scanMetadata, h]

theorem scanMetadata_mids (mids : List Str) (hm : ∀ s ∈ mids, metaWord.isPrefixOf s = false)
    (rest : List Str) : scanMetadata (mids ++ rest) = scanMetadata rest := by
  induction mids with
  | nil => rfl
  | cons s mids ih =>
    rw [List.cons_append, scanMetadata_skip s _ (hm s (List.mem_cons_self s mids))]
    exact ih fun t ht => hm t (List.mem_cons_of_mem s ht)

theorem sepNL_ne_nil : sepNL ≠ [] := by rw [sepNL_eq]; simp

theorem metaLines_split (image entry : Str) (hi : '\n' ∉ image) (he : '\n' ∉ entry) :
    pySplit sepNL (metaHead ++ (image ++ (rcMid3 ++ (entry ++ sepNL)))) =
      [metaWord, imgLineHead ++ image, entLineHead ++ entry, []] := by
  have hD : metaHead ++ (image ++ (rcMid3 ++ (entry ++ sepNL))) =
      metaWord ++ (sepNL ++ ((imgLineHead ++ image) ++ (sepNL ++
        ((entLineHead ++ entry) ++ (sepNL ++ []))))) := by
    have hmh : metaHead = metaWord ++ (sepNL ++ imgLineHead) := by decide
    rw [hmh, rcMid3_eq, sepNL_eq]
    simp [List.append_assoc]
  rw [hD]
  have h1 : NoMidOcc sepNL metaWord (sepNL ++ ((imgLineHead ++ image) ++ (sepNL ++
      ((entLineHead ++ entry) ++ (sepNL ++ []))))) := by
    rw [sepNL_eq]
    exact noMidOcc_head_notMem '\n' _ metaWord _ (by decide)
  have hline2 : '\n' ∉ imgLineHead ++ image := by
    intro hm
    rcases List.mem_append.mp hm with h | h
    · exact absurd h (by decide)
    · exact hi h
  have hline3 : '\n' ∉ entLineHead ++ entry := by
    intro hm
    rcases List.mem_append.mp hm with h | h
    · exact absurd h (by decide)
    · exact he h
  have h2 : NoMidOcc sepNL (imgLineHead ++ image) (sepNL ++
      ((entLineHead ++ entry) ++ (sepNL ++ []))) := by
    rw [sepNL_eq]
    exact noMidOcc_head_notMem '\n' _ _ _ hline2
  have h3 : NoMidOcc sepNL (entLineHead ++ entry) (sepNL ++ []) := by
    rw [sepNL_eq]
    exact noMidOcc_head_notMem '\n' _ _ _ hline3
  rw [pySplit_boundary _ _ _ sepNL_ne_nil h1]
  rw [pySplit_boundary _ _ _ sepNL_ne_nil h2]
  rw [pySplit_boundary _ _ _ sepNL_ne_nil h3]
  rw [pySplit_of_none _ _ (splitFirst_nil sepNL sepNL_ne_nil)]

theorem pySplit1_colon_key (key tail0 : Str) (hk : ':' ∉ key) :
    pySplit1 colonSpace (key ++ (colonSpace ++ tail0)) = [key, tail0] := by
  unfold pySplit1
  have hmid : NoMidOcc colonSpace key (colonSpace ++ tail0) := by
    rw [colonSpace_eq]
    exact noMidOcc_head_notMem ':' _ key _ hk
  rw [splitFirst_boundary _ _ _ (by rw [colonSpace_eq]; simp) hmid]

theorem parseMetaLines_step (line : Str) (rest : List Str) (acc : Str × Str) :
    parseMetaLines (line :: rest) acc =
      if dashSpace.isPrefixOf line then
        match pySplit1 colonSpace (line.drop 2) with
        | [k, v] =>
          parseMetaLines rest
            (if k = imageKey then (pyStrip v, acc.2)
             else if k = entryMessageKey then (acc.1, pyStrip v)
             else acc)
        | _ => parseMetaLines rest acc
      else parseMetaLines rest acc := rfl

theorem parseMetaLines_skip (line : Str) (rest : List Str) (acc : Str × Str)
    (h : dashSpace.isPrefixOf line = false) :
    parseMetaLines (line :: rest) acc = parseMetaLines rest acc := by
  rw [parseMetaLines_step, h, if_neg Bool.false_ne_true]

theorem parseMetaLines_item (line : Str) (rest : List Str) (acc : Str × Str) (k v : Str)
    (h : dashSpace.isPrefixOf line = true)
    (hs : pySplit1 colonSpace (line.drop 2) = [k, v]) :
    parseMetaLines (line :: rest) acc =
      parseMetaLines rest
        (if k = imageKey then (pyStrip v, acc.2)
         else if k = entryMessageKey then (acc.1, pyStrip v)
         else acc) := by
  rw [parseMetaLines_step, h, if_pos rfl, hs]

theorem parseMetaLines_doc (image entry : Str)
    (hi2 : pyStrip image = image) (he2 : pyStrip entry = entry) :
    parseMetaLines [metaWord, imgLineHead ++ image, entLineHead ++ entry, []] ([], []) =
      (image, entry) := by
  have l1 : dashSpace.isPrefixOf metaWord = false := by decide
  have l2 : dashSpace.isPrefixOf (imgLineHead ++ image) = true := by
    rw [show imgLineHead ++ image = '-' :: (' ' :: ("image: ".toList ++ image)) from rfl]
    rw [dashSpace_eq, isPrefixOf_cons, isPrefixOf_cons, nil_isPrefixOf]
    simp
  have l2d : (imgLineHead ++ image).drop 2 = "image: ".toList ++ image := rfl
  have l2s : pySplit1 colonSpace ( "image: ".toList ++ image) = [imageKey, image] := by
    rw [show ( "image: ".toList ++ image : Str) = imageKey ++ (colonSpace ++ image) from rfl]
    exact pySplit1_colon_key imageKey image (by decide)
  have l3 : dashSpace.isPrefixOf (entLineHead ++ entry) = true := by
    rw [show entLineHead ++ entry = '-' :: (' ' :: ("entry_message: ".toList ++ entry)) from rfl]
    rw [dashSpace_eq, isPrefixOf_cons, isPrefixOf_cons, nil_isPrefixOf]
    simp
  have l3d : (entLineHead ++ entry).drop 2 = "entry_message: ".toList ++ entry := rfl
  have l3s : pySplit1 colonSpace ( "entry_message: ".toList ++ entry) =
      [entryMessageKey, entry] := by
    rw [show ( "entry_message: ".toList ++ entry : Str) =
      entryMessageKey ++ (colonSpace ++ entry) from rfl]
    exact pySplit1_colon_key entryMessageKey entry (by decide)
  have l4 : dashSpace.isPrefixOf ([] : Str) = false := rfl
  have hkne : ¬ entryMessageKey = imageKey := by decide
  have hs2 : pySplit1 colonSpace ((imgLineHead ++ image).drop 2) = [imageKey, image] := by
    rw [l2d]; exact l2s
  have hs3 : pySplit1 colonSpace ((entLineHead ++ entry).drop 2) =
      [entryMessageKey, entry] := by
    rw [l3d]; exact l3s
  calc parseMetaLines [metaWord, imgLineHead ++ image, entLineHead ++ entry, []] ([], [])
      = parseMetaLines [imgLineHead ++ image, entLineHead ++ entry, []] ([], []) :=
        parseMetaLines_skip _ _ _ l1
    _ = parseMetaLines [entLineHead ++ entry, []] (pyStrip image, []) := by
        rw [parseMetaLines_item _ _ _ _ _ l2 hs2, if_pos rfl]
    _ = parseMetaLines [[]] (pyStrip image, pyStrip entry) := by
        rw [parseMetaLines_item _ _ _ _ _ l3 hs3, if_neg hkne, if_pos rfl]
    _ = (pyStrip image, pyStrip entry) := parseMetaLines_skip _ _ _ l4
  rw [hi2, he2]

theorem scanMetadata_metaSection (image entry : Str) (rest : List Str)
    (hi : '\n' ∉ image) (he : '\n' ∉ entry)
    (hi2 : pyStrip image = image) (he2 : pyStrip entry = entry) :
    scanMetadata ((metaHead ++ (image ++ (rcMid3 ++ (entry ++ sepNL)))) :: rest) =
      (image, entry) := by
  have hstart : metaWord.isPrefixOf
      (metaHead ++ (image ++ (rcMid3 ++ (entry ++ sepNL)))) = true := by
    rw [show metaHead ++ (image ++ (rcMid3 ++ (entry ++ sepNL))) =
      metaWord ++ ( "\n- image: ".toList ++ (image ++ (rcMid3 ++ (entry ++ sepNL)))) from rfl]
    exact isPrefixOf_self_append metaWord _
  simp only [scanMetadata, hstart, if_true]
  rw [metaLines_split image entry hi he]
  exact parseMetaLines_doc image entry hi2 he2

/-! ## Parsing the first section of a saved document -/

theorem notMem_hashSpace_append (name : Str) (hn1 : '\n' ∉ name) :
    '\n' ∉ hashSpace ++ name := by
  intro hm
  rcases List.mem_append.mp hm with h | h
  · exact absurd h (by decide)
  · exact hn1 h

theorem first_line_split (name body : Str) (hn1 : '\n' ∉ name) :
    pySplit1 sepNL (hashSpace ++ (name ++ (sepBlank ++ body))) =
      [hashSpace ++ name, '\n' :: body] := by
  have hsh : hashSpace ++ (name ++ (sepBlank ++ body)) =
      (hashSpace ++ name) ++ (sepNL ++ ('\n' :: body)) := by
    rw [sepBlank_eq, sepNL_eq]
    simp [List.append_assoc]
  rw [hsh]
  unfold pySplit1
  have hmid : NoMidOcc sepNL (hashSpace ++ name) (sepNL ++ ('\n' :: body)) := by
    rw [sepNL_eq]
    exact noMidOcc_head_notMem '\n' _ _ _ (notMem_hashSpace_append name hn1)
  rw [splitFirst_boundary _ _ _ sepNL_ne_nil hmid]

theorem sepBlank_ne_nil : sepBlank ≠ [] := by rw [sepBlank_eq]; simp

theorem blank_split (name body : Str) (hn1 : '\n' ∉ name) :
    pySplit1 sepBlank (hashSpace ++ (name ++ (sepBlank ++ body))) =
      [hashSpace ++ name, body] := by
  have hsh : hashSpace ++ (name ++ (sepBlank ++ body)) =
      (hashSpace ++ name) ++ (sepBlank ++ body) := by
    simp [List.append_assoc]
  rw [hsh]
  unfold pySplit1
  have hmid : NoMidOcc sepBlank (hashSpace ++ name) (sepBlank ++ body) := by
    rw [sepBlank_eq]
    exact noMidOcc_head_notMem '\n' _ _ _ (notMem_hashSpace_append name hn1)
  rw [splitFirst_boundary _ _ _ sepBlank_ne_nil hmid]

theorem parsed_name_eq (name : Str) (hn2 : splitFirst hashSpace name = none)
    (hn3 : pyStrip name = name) :
    pyStrip (pyReplace hashSpace [] (hashSpace ++ name)) = name := by
  rw [pyReplace_head hashSpace [] name (by rw [hashSpace_eq]; simp)]
  rw [List.nil_append, pyReplace_of_none _ _ _ hn2, hn3]

theorem parse_readme_of_split (content a rest : Str)
    (h : pySplit1 sepBlank ((pySplit sepH2 content).headD []) = [a, rest]) :
    parse_readme content = some
      { name := pyStrip (pyReplace hashSpace []
          ((pySplit1 sepNL ((pySplit sepH2 content).headD [])).headD [])),
        prompt := pyStrip rest,
        image := (scanMetadata (pySplit sepH2 content)).1,
        entry_message := (scanMetadata (pySplit sepH2 content)).2 } := by
  unfold parse_readme
  rw [h]

/-! ## The full section decomposition of a saved document -/

theorem hashHash_nl (z : Str) : List.isPrefixOf ['#', '#', ' '] ('\n' :: z) = false :=
  isPrefixOf_head_ne _ _ _ _ (by decide)

theorem readme_sections (name prompt image entry : Str) (hn1 : '\n' ∉ name)
    (hn2 : splitFirst hashSpace name = none)
    (hp1 : splitFirst sepH2 prompt = none)
    (hp2 : hashHashSpace.isPrefixOf prompt = false)
    (hi : '\n' ∉ image) (he : '\n' ∉ entry) :
    ∃ mids : List Str,
      pySplit sepH2 (readme_content ⟨name, prompt, image, entry⟩) =
        (hashSpace ++ (name ++ (sepBlank ++ (prompt ++ ['\n'])))) ::
          (mids ++ [metaHead ++ (image ++ (rcMid3 ++ (entry ++ sepNL)))]) ∧
      ∀ s ∈ mids, metaWord.isPrefixOf s = false := by
  obtain ⟨mids, hm1, hm2⟩ := tail_sections name
    (metaHead ++ (image ++ (rcMid3 ++ (entry ++ sepNL)))) hn1 hn2
    (metaSection_none image entry hi he)
  refine ⟨mids, ?_, hm2⟩
  have hp2l : List.isPrefixOf ['#', '#', ' '] prompt = false := by
    rw [← hashHashSpace_eq]
    exact hp2
  have hspanAll : ∀ x, List.isPrefixOf ['#', '#', ' '] (prompt ++ '\n' :: x) = false := by
    intro x
    have hh := isPrefixOf_append_cons_false (['#', '#', ' '] : Str) '\n' (by decide) prompt x hp2l
    exact hh
  have hdoc : readme_content ⟨name, prompt, image, entry⟩ =
      (hashSpace ++ (name ++ (sepBlank ++ (prompt ++ ['\n'])))) ++
        (sepH2 ++ (charBlock ++ (sepH2 ++ ((voiceHead ++ (name ++ voiceTail)) ++
          (sepH2 ++ (metaHead ++ (image ++ (rcMid3 ++ (entry ++ sepNL))))))))) := by
    show hashSpace ++ name ++ sepBlank ++ prompt ++ rcMid1 ++ name ++ rcMid2 ++
        image ++ rcMid3 ++ entry ++ sepNL = _
    rw [rcMid1_eq, rcMid2_eq]
    simp only [List.append_assoc]
  rw [hdoc]
  have hA : NoMidOcc sepH2 (hashSpace ++ (name ++ (sepBlank ++ (prompt ++ ['\n']))))
      (sepH2 ++ (charBlock ++ (sepH2 ++ ((voiceHead ++ (name ++ voiceTail)) ++
        (sepH2 ++ (metaHead ++ (image ++ (rcMid3 ++ (entry ++ sepNL))))))))) := by
    apply noMidOcc_append
    · rw [sepH2_eq]
      exact noMidOcc_head_notMem '\n' _ hashSpace _ (by decide)
    apply noMidOcc_append
    · rw [sepH2_eq]
      exact noMidOcc_head_notMem '\n' _ name _ hn1
    apply noMidOcc_append
    · rw [sepBlank_eq]
      refine ⟨?_, ?_, trivial⟩
      · rw [sepH2_eq, isPrefixOf_cons, List.singleton_append, hashHash_nl]
        simp
      · rw [List.nil_append, sepH2_eq, isPrefixOf_cons]
        rw [List.append_assoc, List.singleton_append, hspanAll]
        simp
    apply noMidOcc_append
    · rw [List.singleton_append]
      exact noMidOcc_sepH2_of_none prompt hp1 _
    · refine ⟨?_, trivial⟩
      rw [List.nil_append, sepH2_eq, isPrefixOf_cons, List.cons_append, hashHash_nl]
      simp
  rw [pySplit_boundary _ _ _ sepH2_ne_nil hA, hm1]

/-- C1 (amended): parsing the document produced by saving a record with
non-empty name and prompt yields back the record's four fields, provided
additionally that the name is a single line containing no `"# "` and without
surrounding whitespace, the prompt contains no `"\n## "`, does not begin with
`"## "`, and has no surrounding whitespace, and the image and entry-message
values are single lines without surrounding whitespace. -/
theorem save_parse_roundtrip (p : PersonaRecord)
    (hname : p.name ≠ []) (hprompt : p.prompt ≠ [])
    (hn1 : '\n' ∉ p.name) (hn2 : splitFirst hashSpace p.name = none)
    (hn3 : pyStrip p.name = p.name)
    (hp1 : splitFirst sepH2 p.prompt = none)
    (hp2 : hashHashSpace.isPrefixOf p.prompt = false)
    (hp3 : pyStrip p.prompt = p.prompt)
    (hi1 : '\n' ∉ p.image) (hi2 : pyStrip p.image = p.image)
    (he1 : '\n' ∉ p.entry_message) (he2 : pyStrip p.entry_message = p.entry_message) :
    parse_readme (readme_content p) = some p := by
  obtain ⟨name, prompt, image, entry⟩ := p
  simp only at hn1 hn2 hn3 hp1 hp2 hp3 hi1 hi2 he1 he2
  obtain ⟨mids, hsecs, hmids⟩ :=
    readme_sections name prompt image entry hn1 hn2 hp1 hp2 hi1 he1
  have hsec0 : (pySplit sepH2 (readme_content ⟨name, prompt, image, entry⟩)).headD [] =
      hashSpace ++ (name ++ (sepBlank ++ (prompt ++ ['\n']))) := by
    rw [hsecs]
    rfl
  have hps : pySplit1 sepBlank
      ((pySplit sepH2 (readme_content ⟨name, prompt, image, entry⟩)).headD []) =
      [hashSpace ++ name, prompt ++ ['\n']] := by
    rw [hsec0]
    exact blank_split name (prompt ++ ['\n']) hn1
  rw [parse_readme_of_split _ _ _ hps]
  rw [hsec0, first_line_split name (prompt ++ ['\n']) hn1, List.headD_cons]
  rw [parsed_name_eq name hn2 hn3]
  rw [pyStrip_append_newline prompt, hp3]
  rw [hsecs]
  have hAnm : metaWord.isPrefixOf
      (hashSpace ++ (name ++ (sepBlank ++ (prompt ++ ['\n'])))) = false := by
    rw [show hashSpace ++ (name ++ (sepBlank ++ (prompt ++ ['\n']))) =
      '#' :: (' ' :: (name ++ (sepBlank ++ (prompt ++ ['\n'])))) from rfl, metaWord_eq]
    exact isPrefixOf_head_ne _ _ _ _ (by decide)
  rw [scanMetadata_skip _ _ hAnm]
  rw [scanMetadata_mids mids hmids _]
  rw [scanMetadata_metaSection image entry [] hi1 he1 hi2 he2]

/-- Witness for C1 at the `nova` sample record. -/
theorem save_parse_roundtrip_witness :
    sampleRec.name ≠ [] ∧ parse_readme (readme_content sampleRec) = some sampleRec :=
  ⟨by decide,
    save_parse_roundtrip sampleRec (by decide) (by decide) (by decide) (by decide)
      (by decide) (by decide) (by decide) (by decide) (by decide) (by decide)
      (by decide) (by decide)⟩

/-- Counterexample for C1: a record with non-empty name `"A # B"` and
non-empty prompt does not survive the round trip — the interior `"# "` of the
name is also removed by the parser. -/
theorem save_parse_roundtrip_counterexample :
    ceRecC1.name ≠ [] ∧ ceRecC1.prompt ≠ [] ∧
      (parse_readme (readme_content ceRecC1)).map PersonaRecord.name =
        some ( "A B".toList) ∧
      some ( "A B".toList) ≠ some ceRecC1.name :=
  ⟨by decide, by decide, by decide, by decide⟩

/-! ## General facts about splitting arbitrary documents -/

theorem pySplit_cons (sep s a b : Str) (hsep : sep ≠ [])
    (h : splitFirst sep s = some (a, b)) : pySplit sep s = a :: pySplit sep b := by
  show pySplitFuel sep (s.length + 1) s = _
  rw [pySplitFuel_succ, h]
  show a :: pySplitFuel sep s.length b = _
  rw [pySplitFuel_irrel sep hsep s.length (b.length + 1) b
    (splitFirst_length_lt sep hsep s a b h) (Nat.lt_succ_self _)]
  rfl

theorem append_drop_of_isPrefixOf (p : Str) : ∀ s, p.isPrefixOf s = true →
    s = p ++ s.drop p.length := by
  induction p with
  | nil =>
    intro s _
    simp
  | cons a p ih =>
    intro s h
    cases s with
    | nil =>
      rw [show (a :: p).isPrefixOf ([] : Str) = false from rfl] at h
      cases h
    | cons b s =>
      rw [isPrefixOf_cons] at h
      obtain ⟨h1, h2⟩ := Bool.and_eq_true_iff.mp h
      have hab : a = b := eq_of_beq h1
      rw [List.length_cons, List.drop_succ_cons, List.cons_append, ← hab]
      rw [← ih s h2]

theorem splitFirst_reconstruct (sep : Str) (hsep : sep ≠ []) :
    ∀ s a b, splitFirst sep s = some (a, b) → s = a ++ (sep ++ b) := by
  intro s
  induction s with
  | nil =>
    intro a b h
    rw [splitFirst_nil sep hsep] at h
    cases h
  | cons c cs ih =>
    intro a b h
    by_cases hp : sep.isPrefixOf (c :: cs) = true
    · rw [splitFirst_cons_pos _ _ _ hp] at h
      have ha : a = [] := by
        injection h with h2
        exact (congrArg Prod.fst h2).symm
      have hb : b = (c :: cs).drop sep.length := by
        injection h with h2
        exact (congrArg Prod.snd h2).symm
      rw [ha, hb, List.nil_append]
      exact append_drop_of_isPrefixOf sep (c :: cs) hp
    · have hp2 : sep.isPrefixOf (c :: cs) = false := by
        cases hx : sep.isPrefixOf (c :: cs)
        · rfl
        · exact absurd hx hp
      rw [splitFirst_cons_neg _ _ _ hp2] at h
      cases inner : splitFirst sep cs with
      | none =>
        rw [inner] at h
        cases h
      | some pr =>
        rw [inner, Option.map_some'] at h
        have ha : a = c :: pr.1 := by
          injection h with h2
          exact (congrArg Prod.fst h2).symm
        have hb : b = pr.2 := by
          injection h with h2
          exact (congrArg Prod.snd h2).symm
        rw [ha, hb, List.cons_append]
        rw [← ih pr.1 pr.2 (by rw [inner])]

theorem splitFirst_singleton_none (c : Char) (s : Str) (h : c ∉ s) :
    splitFirst [c] s = none := by
  induction s with
  | nil => rfl
  | cons d s ih =>
    have hcd : (c == d) = false :=
      beq_eq_false_iff_ne.mpr fun e => h (by rw [e]; exact List.mem_cons_self d s)
    have hpre : List.isPrefixOf [c] (d :: s) = false := by
      rw [isPrefixOf_cons, hcd, Bool.false_and]
    rw [splitFirst_cons_neg _ _ _ hpre, ih fun hm => h (List.mem_cons_of_mem d hm)]
    rfl

theorem pySplit1_shapes (sep s : Str) :
    (∃ x, pySplit1 sep s = [x]) ∨ (∃ a b, pySplit1 sep s = [a, b]) := by
  unfold pySplit1
  cases h : splitFirst sep s with
  | none => exact Or.inl ⟨s, rfl⟩
  | some pr => exact Or.inr ⟨pr.1, pr.2, rfl⟩

/-! ## C2: what the parsed prompt actually contains -/

/-- C2 (amended): the parsed prompt is ALL the text following the first blank
line of the first section, stripped — later paragraphs are included, so for a
two-paragraph body the prompt is strictly larger than the first paragraph. -/
theorem parse_prompt_whole_tail (t p1 p2 : Str)
    (ht1 : '\n' ∉ t) (ht2 : splitFirst hashSpace t = none) (ht3 : pyStrip t = t)
    (hb1 : splitFirst sepH2 (p1 ++ (sepBlank ++ p2)) = none)
    (hb2 : hashHashSpace.isPrefixOf (p1 ++ (sepBlank ++ p2)) = false)
    (hb3 : pyStrip (p1 ++ (sepBlank ++ p2)) = p1 ++ (sepBlank ++ p2))
    (hp2ne : p2 ≠ []) :
    parse_readme (hashSpace ++ (t ++ (sepBlank ++ (p1 ++ (sepBlank ++ p2))))) =
      some ⟨t, p1 ++ (sepBlank ++ p2), [], []⟩ ∧
      p1 ++ (sepBlank ++ p2) ≠ p1 := by
  have hnone : splitFirst sepH2
      (hashSpace ++ (t ++ (sepBlank ++ (p1 ++ (sepBlank ++ p2))))) = none := by
    apply splitFirst_append_none
    · rw [sepH2_eq]
      exact noMidOcc_head_notMem '\n' _ hashSpace _ (by decide)
    apply splitFirst_append_none
    · rw [sepH2_eq]
      exact noMidOcc_head_notMem '\n' _ t _ ht1
    apply splitFirst_append_none
    · rw [sepBlank_eq]
      refine ⟨?_, ?_, trivial⟩
      · rw [sepH2_eq, isPrefixOf_cons, List.singleton_append, hashHash_nl]
        simp
      · rw [List.nil_append, sepH2_eq, isPrefixOf_cons]
        have hb2l : List.isPrefixOf ['#', '#', ' '] (p1 ++ (['\n', '\n'] ++ p2)) = false := by
          rw [← sepBlank_eq, ← hashHashSpace_eq]
          exact hb2
        rw [hb2l]
        simp
    · exact hb1
  have hsecs := pySplit_of_none _ _ hnone
  have hps : pySplit1 sepBlank ((pySplit sepH2
      (hashSpace ++ (t ++ (sepBlank ++ (p1 ++ (sepBlank ++ p2)))))).headD []) =
      [hashSpace ++ t, p1 ++ (sepBlank ++ p2)] := by
    rw [hsecs, List.headD_cons]
    exact blank_split t _ ht1
  constructor
  · rw [parse_readme_of_split _ _ _ hps]
    rw [hsecs, List.headD_cons]
    rw [first_line_split t _ ht1, List.headD_cons]
    rw [parsed_name_eq t ht2 ht3, hb3]
    have hcnm : metaWord.isPrefixOf
        (hashSpace ++ (t ++ (sepBlank ++ (p1 ++ (sepBlank ++ p2))))) = false := by
      rw [show hashSpace ++ (t ++ (sepBlank ++ (p1 ++ (sepBlank ++ p2)))) =
        '#' :: (' ' :: (t ++ (sepBlank ++ (p1 ++ (sepBlank ++ p2))))) from rfl, metaWord_eq]
      exact isPrefixOf_head_ne _ _ _ _ (by decide)
    rw [scanMetadata_skip _ _ hcnm]
    rfl
  · intro he
    have hp2len : p2.length ≠ 0 := fun h0 => hp2ne (List.eq_nil_of_length_eq_zero h0)
    have hlen := congrArg List.length he
    rw [List.length_append, List.length_append, sepBlank_eq] at hlen
    simp only [List.length_cons, List.length_nil] at hlen
    omega

/-- Witness for C2, on a title and a two-paragraph body. -/
theorem parse_prompt_whole_tail_witness :
    ('\n' ∉ ( "T".toList : Str)) ∧
      parse_readme (hashSpace ++ ( "T".toList ++ (sepBlank ++
          ( "a".toList ++ (sepBlank ++ "b".toList))))) =
        some ⟨ "T".toList, "a".toList ++ (sepBlank ++ "b".toList), [], []⟩ ∧
      "a".toList ++ (sepBlank ++ "b".toList) ≠ ( "a".toList : Str) :=
  ⟨by decide,
    (parse_prompt_whole_tail ( "T".toList) ( "a".toList) ( "b".toList) (by decide)
      (by decide) (by decide) (by decide) (by decide) (by decide) (by decide)).1,
    (parse_prompt_whole_tail ( "T".toList) ( "a".toList) ( "b".toList) (by decide)
      (by decide) (by decide) (by decide) (by decide) (by decide) (by decide)).2⟩

/-- Counterexample for C2: on a document with two paragraphs after the title,
the parsed prompt also contains the second paragraph, not only the text up to
the first blank line. -/
theorem parse_prompt_counterexample :
    (parse_readme ceDocC2).map PersonaRecord.prompt =
        some ( "para one\n\npara two".toList) ∧
      some ( "para one\n\npara two".toList) ≠ some ( "para one".toList) :=
  ⟨by decide, by decide⟩

/-! ## C3: what the parsed name actually is -/

theorem sepH2_append_cons (X : Str) : sepH2 ++ X = '\n' :: (['#', '#', ' '] ++ X) := by
  rw [sepH2_eq, List.cons_append]

/-- C3 (amended): for a document whose first line is `line` (single-line), the
parsed name is `line` with EVERY occurrence of `"# "` removed, then stripped —
not only a single leading marker. -/
theorem parse_name_replaces_all (line rest : Str) (r : PersonaRecord)
    (hline : '\n' ∉ line)
    (h : parse_readme (line ++ '\n' :: rest) = some r) :
    r.name = pyStrip (pyReplace hashSpace [] line) := by
  have hfl : (pySplit1 sepNL ((pySplit sepH2 (line ++ '\n' :: rest)).headD [])).headD [] =
      line := by
    cases hsf : splitFirst sepH2 (line ++ '\n' :: rest) with
    | none =>
      rw [pySplit_of_none _ _ hsf, List.headD_cons]
      unfold pySplit1
      have hmid : NoMidOcc sepNL line (sepNL ++ rest) := by
        rw [sepNL_eq]
        exact noMidOcc_head_notMem '\n' _ _ _ hline
      rw [show (line ++ '\n' :: rest : Str) = line ++ (sepNL ++ rest) from by
        rw [sepNL_eq, List.singleton_append]]
      rw [splitFirst_boundary sepNL line rest sepNL_ne_nil hmid]
      rfl
    | some pr =>
      obtain ⟨a, b⟩ := pr
      rw [pySplit_cons sepH2 _ a b sepH2_ne_nil hsf, List.headD_cons]
      have hrec := splitFirst_reconstruct sepH2 sepH2_ne_nil _ a b hsf
      rcases append_eq_append_cases line a ('\n' :: rest) (sepH2 ++ b) hrec with
        ⟨u, hu⟩ | ⟨u, hu⟩
      · cases u with
        | nil =>
          rw [List.append_nil] at hu
          subst hu
          unfold pySplit1
          rw [sepNL_eq, splitFirst_singleton_none '\n' _ hline]
          rfl
        | cons c u =>
          have hc : c = '\n' := by
            rw [hu, List.append_assoc] at hrec
            have h2 := List.append_cancel_left hrec
            rw [List.cons_append] at h2
            injection h2 with h3 _
            exact h3.symm
          subst hc
          subst hu
          unfold pySplit1
          have hmid : NoMidOcc sepNL line (sepNL ++ u) := by
            rw [sepNL_eq]
            exact noMidOcc_head_notMem '\n' _ _ _ hline
          rw [show (line ++ '\n' :: u : Str) = line ++ (sepNL ++ u) from by
            rw [sepNL_eq, List.singleton_append]]
          rw [splitFirst_boundary sepNL line u sepNL_ne_nil hmid]
          rfl
      · cases u with
        | nil =>
          rw [List.append_nil] at hu
          subst hu
          unfold pySplit1
          rw [sepNL_eq, splitFirst_singleton_none '\n' _ hline]
          rfl
        | cons c u =>
          exfalso
          rw [hu, List.append_assoc] at hrec
          have h2 := List.append_cancel_left hrec
          rw [List.cons_append, sepH2_append_cons] at h2
          injection h2 with h3 _
          refine hline ?_
          rw [hu, h3]
          exact List.mem_append.mpr (Or.inr (List.mem_cons_self '\n' u))
  rcases pySplit1_shapes sepBlank ((pySplit sepH2 (line ++ '\n' :: rest)).headD []) with
    ⟨x, hx⟩ | ⟨x, y, hxy⟩
  · unfold parse_readme at h
    rw [hx] at h
    exact Option.noConfusion h
  · unfold parse_readme at h
    rw [hxy] at h
    have hr := Option.some.inj h
    rw [← hr]
    show pyStrip (pyReplace hashSpace []
      ((pySplit1 sepNL ((pySplit sepH2 (line ++ '\n' :: rest)).headD [])).headD [])) = _
    rw [hfl]

/-- Witness for C3 on a title line with an interior `"# "`. -/
theorem parse_name_replaces_all_witness :
    ('\n' ∉ ( "# A # B".toList : Str)) ∧
      parse_readme ( "# A # B".toList ++ '\n' :: "\nP".toList) =
        some ⟨ "A B".toList, "P".toList, [], []⟩ ∧
      ( "A B".toList : Str) = pyStrip (pyReplace hashSpace [] ( "# A # B".toList)) :=
  ⟨by decide, by decide,
    parse_name_replaces_all ( "# A # B".toList) ( "\nP".toList)
      ⟨ "A B".toList, "P".toList, [], []⟩ (by decide) (by decide)⟩

/-- Counterexample for C3: with title line `"# A # B"`, the parser also removes
the interior `"# "`, yielding `"A B"` instead of the claimed `"A # B"`. -/
theorem parse_name_counterexample :
    (parse_readme ceDocC3).map PersonaRecord.name = some ( "A B".toList) ∧
      some ( "A B".toList) ≠ some ( "A # B".toList) :=
  ⟨by decide, by decide⟩

/-! ## C8: embedded second-level headers in the prompt -/

theorem isPrefixOf_length_le (p : Str) : ∀ s, p.isPrefixOf s = true →
    p.length ≤ s.length := by
  induction p with
  | nil =>
    intro s _
    simp
  | cons a p ih =>
    intro s h
    cases s with
    | nil =>
      rw [show (a :: p).isPrefixOf ([] : Str) = false from rfl] at h
      cases h
    | cons b s =>
      rw [isPrefixOf_cons] at h
      obtain ⟨_, h2⟩ := Bool.and_eq_true_iff.mp h
      simp only [List.length_cons]
      exact Nat.succ_le_succ (ih s h2)

/-- The text before the leftmost occurrence of `sep` contains no occurrence. -/
theorem splitFirst_fst_none (sep : Str) (hsep : sep ≠ []) :
    ∀ s a b, splitFirst sep s = some (a, b) → splitFirst sep a = none := by
  intro s
  induction s with
  | nil =>
    intro a b h
    rw [splitFirst_nil sep hsep] at h
    cases h
  | cons c cs ih =>
    intro a b h
    by_cases hp : sep.isPrefixOf (c :: cs) = true
    · rw [splitFirst_cons_pos _ _ _ hp] at h
      have ha : a = [] := by
        injection h with h2
        exact (congrArg Prod.fst h2).symm
      rw [ha]
      exact splitFirst_nil sep hsep
    · have hp2 : sep.isPrefixOf (c :: cs) = false := by
        cases hx : sep.isPrefixOf (c :: cs)
        · rfl
        · exact absurd hx hp
      rw [splitFirst_cons_neg _ _ _ hp2] at h
      cases inner : splitFirst sep cs with
      | none =>
        rw [inner] at h
        cases h
      | some pr =>
        rw [inner, Option.map_some'] at h
        have ha : a = c :: pr.1 := by
          injection h with h2
          exact (congrArg Prod.fst h2).symm
        have hrec := ih pr.1 pr.2 (by rw [inner])
        have hcs : cs = pr.1 ++ (sep ++ pr.2) :=
          splitFirst_reconstruct sep hsep cs pr.1 pr.2 (by rw [inner])
        have hpre : sep.isPrefixOf (c :: pr.1) = false := by
          by_cases hlen : sep.length ≤ (c :: pr.1).length
          · have hshape : (c :: cs : Str) = (c :: pr.1) ++ (sep ++ pr.2) := by
              rw [hcs]
              rfl
            rw [hshape, isPrefixOf_append_left _ _ _ hlen] at hp2
            exact hp2
          · cases hx : sep.isPrefixOf (c :: pr.1)
            · rfl
            · exact absurd (isPrefixOf_length_le sep _ hx) hlen
        rw [ha, splitFirst_cons_neg _ _ _ hpre, hrec]
        rfl

theorem pySplit_parts_none_bounded (sep : Str) (hsep : sep ≠ []) :
    ∀ n s, s.length ≤ n → ∀ q ∈ pySplit sep s, splitFirst sep q = none := by
  intro n
  induction n with
  | zero =>
    intro s hs q hq
    have hs0 : s = [] := List.eq_nil_of_length_eq_zero (Nat.le_zero.mp hs)
    subst hs0
    rw [pySplit_of_none _ _ (splitFirst_nil sep hsep)] at hq
    simp only [List.mem_singleton] at hq
    subst hq
    exact splitFirst_nil sep hsep
  | succ n ih =>
    intro s hs q hq
    cases hsf : splitFirst sep s with
    | none =>
      rw [pySplit_of_none _ _ hsf] at hq
      simp only [List.mem_singleton] at hq
      subst hq
      exact hsf
    | some pr =>
      obtain ⟨a, b⟩ := pr
      rw [pySplit_cons sep s a b hsep hsf] at hq
      rcases List.mem_cons.mp hq with rfl | hq2
      · exact splitFirst_fst_none sep hsep s _ b hsf
      · refine ih b ?_ q hq2
        have := splitFirst_length_lt sep hsep s a b hsf
        omega

/-- Every fragment produced by `pySplit` is free of the separator. -/
theorem pySplit_parts_none (sep s : Str) (hsep : sep ≠ []) :
    ∀ q ∈ pySplit sep s, splitFirst sep q = none :=
  pySplit_parts_none_bounded sep hsep s.length s (Nat.le_refl _)

theorem pySplitFuel_ne_nil (sep : Str) : ∀ f s, pySplitFuel sep f s ≠ [] := by
  intro f
  induction f with
  | zero =>
    intro s
    simp [pySplitFuel]
  | succ f _ =>
    intro s
    rw [pySplitFuel_succ]
    cases h : splitFirst sep s with
    | none => simp
    | some pr =>
      obtain ⟨a, b⟩ := pr
      simp

theorem pySplit_ne_nil (sep s : Str) : pySplit sep s ≠ [] :=
  pySplitFuel_ne_nil sep (s.length + 1) s

theorem pyJoin_cons_ne (sep x : Str) (l : List Str) (h : l ≠ []) :
    pyJoin sep (x :: l) = x ++ (sep ++ pyJoin sep l) := by
  cases l with
  | nil => exact absurd rfl h
  | cons y rest =>
    show x ++ sep ++ pyJoin sep (y :: rest) = x ++ (sep ++ pyJoin sep (y :: rest))
    rw [List.append_assoc]

/-- Joining the fragments of `pySplit` recovers the original string. -/
theorem pyJoin_pySplit_bounded (sep : Str) (hsep : sep ≠ []) :
    ∀ n s, s.length ≤ n → pyJoin sep (pySplit sep s) = s := by
  intro n
  induction n with
  | zero =>
    intro s hs
    have hs0 : s = [] := List.eq_nil_of_length_eq_zero (Nat.le_zero.mp hs)
    subst hs0
    rw [pySplit_of_none _ _ (splitFirst_nil sep hsep)]
    rfl
  | succ n ih =>
    intro s hs
    cases hsf : splitFirst sep s with
    | none =>
      rw [pySplit_of_none _ _ hsf]
      rfl
    | some pr =>
      obtain ⟨a, b⟩ := pr
      rw [pySplit_cons sep s a b hsep hsf]
      rw [pyJoin_cons_ne sep a _ (pySplit_ne_nil sep b)]
      have hlen := splitFirst_length_lt sep hsep s a b hsf
      rw [ih b (by omega)]
      exact (splitFirst_reconstruct sep hsep s a b hsf).symm

theorem pyJoin_pySplit (sep s : Str) (hsep : sep ≠ []) :
    pyJoin sep (pySplit sep s) = s :=
  pyJoin_pySplit_bounded sep hsep s.length s (Nat.le_refl _)

/-- A separator-free fragment followed by the newline that closes the prompt
region admits no section separator starting inside it. -/
theorem noMidOcc_fragment_nl (q : Str) (hq : splitFirst sepH2 q = none) (X : Str) :
    NoMidOcc sepH2 (q ++ ['\n']) (sepH2 ++ X) := by
  apply noMidOcc_append
  · rw [List.singleton_append, sepH2_append_cons]
    exact noMidOcc_sepH2_of_none q hq _
  · refine ⟨?_, trivial⟩
    rw [List.nil_append, sepH2_eq, isPrefixOf_cons, List.cons_append, hashHash_nl]
    simp

/-- Splitting the prompt region of a saved document: each separator-free
fragment becomes a section of its own, the last one keeping the closing
newline, and splitting continues in the remainder of the document. -/
theorem prompt_region_sections (X : Str) : ∀ (qs : List Str) (qlast : Str),
    (∀ q ∈ qs, splitFirst sepH2 q = none) → splitFirst sepH2 qlast = none →
    pySplit sepH2 (pyJoin sepH2 (qs ++ [qlast]) ++ ('\n' :: (sepH2 ++ X))) =
      qs ++ ((qlast ++ ['\n']) :: pySplit sepH2 X) := by
  intro qs
  induction qs with
  | nil =>
    intro qlast _ hql
    simp only [List.nil_append]
    rw [show pyJoin sepH2 [qlast] = qlast from rfl]
    rw [show (qlast ++ ('\n' :: (sepH2 ++ X)) : Str) =
      (qlast ++ ['\n']) ++ (sepH2 ++ X) from by simp [List.append_assoc]]
    rw [pySplit_boundary _ _ _ sepH2_ne_nil (noMidOcc_fragment_nl qlast hql X)]
  | cons q qs ih =>
    intro qlast hqs hql
    have hq := hqs q (List.mem_cons_self q qs)
    have hqs2 : ∀ r ∈ qs, splitFirst sepH2 r = none :=
      fun r hr => hqs r (List.mem_cons_of_mem q hr)
    rw [List.cons_append, pyJoin_cons_ne sepH2 q _ (by simp)]
    rw [show ((q ++ (sepH2 ++ pyJoin sepH2 (qs ++ [qlast]))) ++
        ('\n' :: (sepH2 ++ X)) : Str) =
      q ++ (sepH2 ++ (pyJoin sepH2 (qs ++ [qlast]) ++ ('\n' :: (sepH2 ++ X)))) from by
      simp [List.append_assoc]]
    have hmid : NoMidOcc sepH2 q
        (sepH2 ++ (pyJoin sepH2 (qs ++ [qlast]) ++ ('\n' :: (sepH2 ++ X)))) := by
      rw [sepH2_append_cons]
      exact noMidOcc_sepH2_of_none q hq _
    rw [pySplit_boundary _ _ _ sepH2_ne_nil hmid]
    rw [ih qlast hqs2 hql]
    rfl

/-- C8 (amended): saving a record whose prompt contains embedded
second-level-header lines (any number of them) still yields a document whose
Metadata section parses back to the saved image and entry message, provided
none of the embedded sections' texts begins with the word `Metadata`, the
prompt does not begin with `"## "`, and the usual single-line, stripped side
conditions on the other fields hold.  The embedded sections are the fragments
after the first one in the prompt's own split on `"\n## "`. -/
theorem save_embedded_header_metadata (p : PersonaRecord)
    (hemb : pyContains sepH2 p.prompt = true)
    (h0 : hashHashSpace.isPrefixOf p.prompt = false)
    (hmeta : ∀ q ∈ (pySplit sepH2 p.prompt).tail, metaWord.isPrefixOf q = false)
    (hn1 : '\n' ∉ p.name) (hn2 : splitFirst hashSpace p.name = none)
    (hi1 : '\n' ∉ p.image) (hi2 : pyStrip p.image = p.image)
    (he1 : '\n' ∉ p.entry_message) (he2 : pyStrip p.entry_message = p.entry_message) :
    (parse_readme (readme_content p)).map PersonaRecord.image = some p.image ∧
      (parse_readme (readme_content p)).map PersonaRecord.entry_message =
        some p.entry_message := by
  obtain ⟨name, prompt, image, entry⟩ := p
  simp only at hemb h0 hmeta hn1 hn2 hi1 hi2 he1 he2
  -- decompose the prompt along its leftmost separator occurrence
  unfold pyContains at hemb
  cases hsf : splitFirst sepH2 prompt with
  | none =>
    rw [hsf] at hemb
    simp at hemb
  | some pr =>
  obtain ⟨p0, prest⟩ := pr
  have hfrag : pySplit sepH2 prompt = p0 :: pySplit sepH2 prest :=
    pySplit_cons sepH2 prompt p0 prest sepH2_ne_nil hsf
  rcases List.eq_nil_or_concat' (pySplit sepH2 prest) with hnil | ⟨qs, qlast, hconcat⟩
  · exact absurd hnil (pySplit_ne_nil sepH2 prest)
  have hjoin : prompt = p0 ++ (sepH2 ++ pyJoin sepH2 (qs ++ [qlast])) := by
    have h1 := pyJoin_pySplit sepH2 prompt sepH2_ne_nil
    rw [hfrag, hconcat, pyJoin_cons_ne sepH2 p0 _ (by simp)] at h1
    exact h1.symm
  have hparts := pySplit_parts_none sepH2 prompt sepH2_ne_nil
  have h01 : splitFirst sepH2 p0 = none :=
    hparts p0 (by rw [hfrag]; exact List.mem_cons_self _ _)
  have hqs1 : ∀ q ∈ qs, splitFirst sepH2 q = none := fun q hq =>
    hparts q (by
      rw [hfrag, hconcat]
      exact List.mem_cons_of_mem _ (List.mem_append.mpr (Or.inl hq)))
  have hql1 : splitFirst sepH2 qlast = none :=
    hparts qlast (by
      rw [hfrag, hconcat]
      exact List.mem_cons_of_mem _ (List.mem_append.mpr (Or.inr (List.mem_singleton.mpr rfl))))
  rw [hfrag, List.tail_cons, hconcat] at hmeta
  have hqs2 : ∀ q ∈ qs, metaWord.isPrefixOf q = false := fun q hq =>
    hmeta q (List.mem_append.mpr (Or.inl hq))
  have hql2 : metaWord.isPrefixOf qlast = false :=
    hmeta qlast (List.mem_append.mpr (Or.inr (List.mem_singleton.mpr rfl)))
  have h02 : hashHashSpace.isPrefixOf p0 = false := by
    cases hx : hashHashSpace.isPrefixOf p0
    · rfl
    · exfalso
      have hlen := isPrefixOf_length_le hashHashSpace p0 hx
      have hpn : hashHashSpace.isPrefixOf prompt = true := by
        rw [hjoin, isPrefixOf_append_left _ _ _ hlen, hx]
      rw [h0] at hpn
      cases hpn
  subst hjoin
  obtain ⟨mids, hm1, hm2⟩ := tail_sections name
    (metaHead ++ (image ++ (rcMid3 ++ (entry ++ sepNL)))) hn1 hn2
    (metaSection_none image entry hi1 he1)
  have h02l : List.isPrefixOf ['#', '#', ' '] p0 = false := by
    rw [← hashHashSpace_eq]
    exact h02
  have hdoc : readme_content
      ⟨name, p0 ++ (sepH2 ++ pyJoin sepH2 (qs ++ [qlast])), image, entry⟩ =
      (hashSpace ++ (name ++ (sepBlank ++ p0))) ++
        (sepH2 ++ (pyJoin sepH2 (qs ++ [qlast]) ++ ('\n' :: (sepH2 ++
          (charBlock ++ (sepH2 ++ ((voiceHead ++ (name ++ voiceTail)) ++
            (sepH2 ++ (metaHead ++ (image ++ (rcMid3 ++ (entry ++ sepNL)))))))))))) := by
    show hashSpace ++ name ++ sepBlank ++
        (p0 ++ (sepH2 ++ pyJoin sepH2 (qs ++ [qlast]))) ++ rcMid1 ++ name ++
        rcMid2 ++ image ++ rcMid3 ++ entry ++ sepNL = _
    rw [rcMid1_eq, rcMid2_eq]
    simp only [List.append_assoc, List.singleton_append, List.cons_append, List.nil_append]
  have hA : ∀ X : Str, NoMidOcc sepH2 (hashSpace ++ (name ++ (sepBlank ++ p0)))
      (sepH2 ++ X) := by
    intro X
    apply noMidOcc_append
    · rw [sepH2_eq]
      exact noMidOcc_head_notMem '\n' _ hashSpace _ (by decide)
    apply noMidOcc_append
    · rw [sepH2_eq]
      exact noMidOcc_head_notMem '\n' _ name _ hn1
    apply noMidOcc_append
    · rw [sepBlank_eq]
      refine ⟨?_, ?_, trivial⟩
      · rw [sepH2_eq, isPrefixOf_cons, List.singleton_append, hashHash_nl]
        simp
      · rw [List.nil_append, sepH2_eq, isPrefixOf_cons, List.cons_append]
        rw [isPrefixOf_append_cons_false (['#', '#', ' '] : Str) '\n' (by decide) p0 _ h02l]
        simp
    · rw [sepH2_append_cons]
      exact noMidOcc_sepH2_of_none p0 h01 _
  have hsecs : pySplit sepH2 (readme_content
      ⟨name, p0 ++ (sepH2 ++ pyJoin sepH2 (qs ++ [qlast])), image, entry⟩) =
      (hashSpace ++ (name ++ (sepBlank ++ p0))) :: (qs ++ ((qlast ++ ['\n']) ::
        (mids ++ [metaHead ++ (image ++ (rcMid3 ++ (entry ++ sepNL)))]))) := by
    rw [hdoc]
    rw [pySplit_boundary _ _ _ sepH2_ne_nil (hA _)]
    rw [prompt_region_sections _ qs qlast hqs1 hql1]
    rw [hm1]
  have hps : pySplit1 sepBlank ((pySplit sepH2 (readme_content
      ⟨name, p0 ++ (sepH2 ++ pyJoin sepH2 (qs ++ [qlast])), image, entry⟩)).headD []) =
      [hashSpace ++ name, p0] := by
    rw [hsecs, List.headD_cons]
    exact blank_split name p0 hn1
  have hA0nm : metaWord.isPrefixOf (hashSpace ++ (name ++ (sepBlank ++ p0))) = false := by
    rw [show hashSpace ++ (name ++ (sepBlank ++ p0)) =
      '#' :: (' ' :: (name ++ (sepBlank ++ p0))) from rfl, metaWord_eq]
    exact isPrefixOf_head_ne _ _ _ _ (by decide)
  have hqlnm : metaWord.isPrefixOf (qlast ++ ['\n']) = false :=
    isPrefixOf_append_cons_false metaWord '\n' (by decide) qlast [] hql2
  have hscan : scanMetadata (pySplit sepH2 (readme_content
      ⟨name, p0 ++ (sepH2 ++ pyJoin sepH2 (qs ++ [qlast])), image, entry⟩)) =
      (image, entry) := by
    rw [hsecs, scanMetadata_skip _ _ hA0nm, scanMetadata_mids qs hqs2 _,
      scanMetadata_skip _ _ hqlnm, scanMetadata_mids mids hm2 _,
      scanMetadata_metaSection image entry [] hi1 he1 hi2 he2]
  rw [parse_readme_of_split _ _ _ hps]
  constructor
  · show some ((scanMetadata (pySplit sepH2 (readme_content
      ⟨name, p0 ++ (sepH2 ++ pyJoin sepH2 (qs ++ [qlast])), image, entry⟩))).1) = some image
    rw [hscan]
  · show some ((scanMetadata (pySplit sepH2 (readme_content
      ⟨name, p0 ++ (sepH2 ++ pyJoin sepH2 (qs ++ [qlast])), image, entry⟩))).2) = some entry
    rw [hscan]

/-- Witness for C8 on a record whose prompt embeds a `"## Extra"` header. -/
theorem save_embedded_header_metadata_witness :
    pyContains sepH2 sampleRecEmbedded.prompt = true ∧
      (parse_readme (readme_content sampleRecEmbedded)).map PersonaRecord.image =
        some sampleRecEmbedded.image ∧
      (parse_readme (readme_content sampleRecEmbedded)).map PersonaRecord.entry_message =
        some sampleRecEmbedded.entry_message :=
  ⟨by decide,
    (save_embedded_header_metadata sampleRecEmbedded (by decide) (by decide) (by decide)
      (by decide) (by decide) (by decide) (by decide) (by decide) (by decide)).1,
    (save_embedded_header_metadata sampleRecEmbedded (by decide) (by decide) (by decide)
      (by decide) (by decide) (by decide) (by decide) (by decide) (by decide)).2⟩

/-- Counterexample for C8: if the embedded header is itself `"## Metadata"`,
the embedded section shadows the real one and the image read back is the
embedded value, not the saved record's empty image. -/
theorem metadata_structure_counterexample :
    pyContains sepH2 ceRecC8.prompt = true ∧
      (parse_readme (readme_content ceRecC8)).map PersonaRecord.image =
        some ( "evil".toList) ∧
      some ( "evil".toList) ≠ some ceRecC8.image :=
  ⟨by decide, by decide, by decide⟩

/-! ## Store operation claims -/

/-- C4: for every key absent from the store's mapping, `update_persona_image`
returns failure (`False`), does not raise, and leaves the store unchanged. -/
theorem update_persona_image_unknown_key (store : Store) (k path : Str)
    (h : lookupKey store k = none) :
    update_persona_image store k path = (false, store) := by
  simp [update_persona_image, h]

/-- Witness for C4 at a concrete store and key. -/
theorem update_persona_image_unknown_key_witness :
    lookupKey sampleStore ( "ghost".toList) = none ∧
      update_persona_image sampleStore ( "ghost".toList) ( "x".toList) = (false, sampleStore) :=
  ⟨by decide, update_persona_image_unknown_key sampleStore _ _ (by decide)⟩

/-- C5 (amended): for a key present in the store, `needs_image_upload` follows
the section 4.1 truth table: true when the image is empty, true when the image
is non-empty and does not contain the domain substring, false when the image is
non-empty and contains it.  The section 8 sentence claiming the result is false
on an empty image does not hold of the code. -/
theorem needs_image_upload_truth_table (store : Store) (k d : Str) (r : PersonaRecord)
    (h : lookupKey store k = some r) :
    (r.image = [] → needs_image_upload store k d = true) ∧
      (r.image ≠ [] → pyContains d r.image = false → needs_image_upload store k d = true) ∧
      (r.image ≠ [] → pyContains d r.image = true → needs_image_upload store k d = false) := by
  refine ⟨fun h1 => ?_, fun h1 h2 => ?_, fun h1 h2 => ?_⟩
  · simp [needs_image_upload, h, h1, List.isEmpty_iff]
  · simp [needs_image_upload, h, h1, h2, List.isEmpty_iff]
  · simp [needs_image_upload, h, h1, h2, List.isEmpty_iff]

/-- Counterexample for C5: on the sample store whose record has an empty image,
`needs_image_upload` returns `True`, so the section 8 sentence "false whenever
image is empty" is false at this input. -/
theorem needs_image_upload_empty_image_true :
    sampleRec.image = [] ∧
      needs_image_upload sampleStore ( "nova".toList) ( "uploadthing.com".toList) = true :=
  ⟨by decide, by decide⟩

/-- Witness for C5 at a concrete store whose image contains the domain. -/
theorem needs_image_upload_truth_table_witness :
    lookupKey sampleStore2 ( "ada".toList) = some sampleRecUploaded ∧
      needs_image_upload sampleStore2 ( "ada".toList) ( "uploadthing.com".toList) = false :=
  ⟨by decide,
    (needs_image_upload_truth_table sampleStore2 ( "ada".toList)
      ( "uploadthing.com".toList) sampleRecUploaded (by decide)).2.2 (by decide) (by decide)⟩

/-- C6: by-key lookup of a key absent from the store fails with the
"not found" error whose message lists the keys currently in the store, and
returns no record; the store is untouched. -/
theorem get_persona_unknown_key (store : Store) (k : Str)
    (h : lookupKey store k = none) :
    get_persona store k =
      (Except.error (personaNotFoundMsg k (storeKeys store)), store) := by
  simp [get_persona, h]

/-- Witness for C6, at the empty store: the error text ends with an empty key
enumeration. -/
theorem get_persona_unknown_key_witness :
    lookupKey ([] : Store) ( "x".toList) = none ∧
      get_persona ([] : Store) ( "x".toList) =
        (Except.error (personaNotFoundMsg ( "x".toList) (storeKeys ([] : Store))), []) ∧
      personaNotFoundMsg ( "x".toList) (storeKeys ([] : Store)) =
        "Persona ".toList ++ [squote] ++ "x".toList ++ [squote] ++
          " not found. Valid options: ".toList :=
  ⟨by decide, get_persona_unknown_key ([] : Store) _ (by decide), by decide⟩

/-- C7: on a key present in the store, `get_persona` returns the stored record
with the fixed behavioural-instruction block appended to its prompt, and the
store (hence the stored record) is unchanged by the call. -/
theorem get_persona_appends_instructions (store : Store) (k : Str) (r : PersonaRecord)
    (h : lookupKey store k = some r) :
    get_persona store k =
      (Except.ok { r with prompt := r.prompt ++ interaction_instructions }, store) := by
  rcases r with ⟨n, p, i, e⟩
  by_cases hi : i = ([] : Str) <;> simp [get_persona, h, hi]

/-- Witness for C7 at the sample store. -/
theorem get_persona_appends_instructions_witness :
    lookupKey sampleStore ( "nova".toList) = some sampleRec ∧
      get_persona sampleStore ( "nova".toList) =
        (Except.ok { sampleRec with prompt := sampleRec.prompt ++ interaction_instructions },
          sampleStore) :=
  ⟨by decide, get_persona_appends_instructions sampleStore _ sampleRec (by decide)⟩

/-- C9: the constructed MeetingBaas request carries deduplication key
`name + "-BaaS-" + id`, and its streaming input and output endpoints both equal
`websocket_url + "/ws/" + id`. -/
theorem create_meeting_bot_request_fields {α : Type} (mu w i n : Str) (ro : Bool)
    (bi em : Option Str) (ex : Option α) (freq : Str) :
    (create_meeting_bot_request mu w i n ro bi em ex freq).deduplication_key =
        some (n ++ "-BaaS-".toList ++ i) ∧
      (create_meeting_bot_request mu w i n ro bi em ex freq).streaming.input =
        w ++ "/ws/".toList ++ i ∧
      (create_meeting_bot_request mu w i n ro bi em ex freq).streaming.output =
        w ++ "/ws/".toList ++ i := by
  cases ro <;> exact ⟨rfl, rfl, rfl⟩

/-- C10: `needs_image_upload` on a key absent from the store returns `False`
(it neither raises nor reports an upload as needed). -/
theorem needs_image_upload_unknown_key (store : Store) (k d : Str)
    (h : lookupKey store k = none) :
    needs_image_upload store k d = false := by
  simp [needs_image_upload, h]

/-- Witness for C10 at a concrete store and absent key. -/
theorem needs_image_upload_unknown_key_witness :
    lookupKey sampleStore ( "ghost".toList) = none ∧
      needs_image_upload sampleStore ( "ghost".toList) ( "uploadthing.com".toList) = false :=
  ⟨by decide, needs_image_upload_unknown_key sampleStore _ _ (by decide)⟩
